import Mathlib

/-!
# Plexir core: a shallow embedding of the Orchestrator, Context Manager and
# Protocol Client, with proofs about the spec's testable properties.

The definitions below are transcribed from the repository sources
(`plexir/core/context.py`, `plexir/core/router.py`, `plexir/mcp/client.py`).
Python machine values are modelled as follows: `str` as `String`, `int` as
`Nat`/`Int` (Python integers are unbounded), `float` money amounts as `ℚ`
(only order comparisons and sums matter here), dict-shaped messages as a
structure with optional fields mirroring the keys the code reads.
-/

namespace Plexir

/-! ## Data model: conversation messages (`context.py`)

A history entry is a Python dict.  The code reads the keys `role`, `content`,
`parts` and `pinned`; a `parts` entry is either a plain string or a dict with
one of the keys `text`, `thought`, `function_call`, `function_response`.
For `function_call` / `function_response` parts the code reads the sub-keys
`name` and `args` / `response`; we carry the `str()` rendering of the
`args` / `response` values as a string field (for simple values Python's
`str` of the payload). -/

inductive Part where
  /-- A dict part carrying a `text` key. -/
  | text (s : String)
  /-- A dict part carrying a `thought` key. -/
  | thought (s : String)
  /-- A dict part carrying a `function_call` key; `args` is the `str()`
  rendering of the call's argument value. -/
  | functionCall (name args : String)
  /-- A dict part carrying a `function_response` key; `response` is the
  `str()` rendering of the response value. -/
  | functionResponse (name response : String)
  /-- A plain string part. -/
  | str (s : String)
  /-- A dict part with none of the recognised keys; the field is its
  Python `str()` rendering. -/
  | otherDict (render : String)
deriving DecidableEq, Repr

structure Msg where
  role : String
  content : Option String
  parts : Option (List Part)
  pinned : Bool
deriving DecidableEq, Repr

/-- Python `str()` of the dict `\x7b'name': n, 'args': a\x7d` (CPython repr
of a two-key dict whose first value is a simple quoted string). -/
def Part.pyStrFC (name args : String) : String :=
  "\x7b'name': '" ++ name ++ "', 'args': " ++ args ++ "\x7d"

/-- Python `str()` of the dict `\x7b'name': n, 'response': r\x7d`. -/
def Part.pyStrFR (name response : String) : String :=
  "\x7b'name': '" ++ name ++ "', 'response': " ++ response ++ "\x7d"

/-! ## `context.py` constants -/

def DEFAULT_MAX_DISTILLED_CHARS : Nat := 1000
def MAX_MESSAGE_LENGTH : Nat := 200
def RECENT_MESSAGES_COUNT : Nat := 5
def KEEP_LAST_MESSAGES : Nat := 4

/-! ## `estimate_token_count`

`len(content) // 4` on strings; on message dicts it sums the estimate of the
`content` value (when the key is present) and of every recognised part.  A
part dict matching none of the `text` / `thought` / `function_call` /
`function_response` branches contributes nothing (the `elif` chain has no
final `else`). -/

def estimateStr (s : String) : Nat := s.length / 4

def estimatePart : Part → Nat
  | .text s => estimateStr s
  | .thought s => estimateStr s
  | .functionCall n a => estimateStr (Part.pyStrFC n a)
  | .functionResponse n r => estimateStr (Part.pyStrFR n r)
  | .str s => estimateStr s
  | .otherDict _ => 0

def estimateMsg (m : Msg) : Nat :=
  (m.content.map estimateStr).getD 0 +
    ((m.parts.map fun ps => (ps.map estimatePart).sum).getD 0)

def estimate_token_count (history : List Msg) : Nat :=
  (history.map estimateMsg).sum

/-! ## `distill` -/

/-- The text rendered for one part inside `distill` (the
`function_call` / `function_response` branches, with `str(part)` as the
fallback for every other part). -/
def partTextForDistill : Part → String
  | .functionCall n a => "Function Call: " ++ n ++ "(" ++ a ++ ")"
  | .functionResponse n r => "Function Response: " ++ n ++ " -> " ++ r
  | .text s => "\x7b'text': '" ++ s ++ "'\x7d"
  | .thought s => "\x7b'thought': '" ++ s ++ "'\x7d"
  | .str s => s
  | .otherDict render => render

/-- Content extraction in `distill`: the `content` key wins; otherwise the
`parts` are rendered and joined with newlines; otherwise the empty string. -/
def msgContentForDistill (m : Msg) : String :=
  match m.content with
  | some c => c
  | none =>
    match m.parts with
    | some ps => String.intercalate "\n" (ps.map partTextForDistill)
    | none => ""

/-- One formatted line of `distill`: `ROLE: content\n` with the content
truncated at `MAX_MESSAGE_LENGTH`. -/
def formatMsgForDistill (m : Msg) : String :=
  let content := msgContentForDistill m
  let content :=
    if content.length > MAX_MESSAGE_LENGTH then
      content.take MAX_MESSAGE_LENGTH ++ "... (truncated)"
    else content
  m.role.toUpper ++ ": " ++ content ++ "\n"

/-- The accumulation loop of `distill`: walk the reversed history, insert the
formatted message at the front unless the char budget would be exceeded, and
stop early once `RECENT_MESSAGES_COUNT` messages are collected and more than
half the budget is used (`current_length > available_chars / 2` over the
integers is `2 * current_length > available_chars`). -/
def distillLoop (available : Nat) : List Msg → List String → Nat → List String
  | [], acc, _ => acc
  | m :: rest, acc, curLen =>
    let fm := formatMsgForDistill m
    if curLen + fm.length > available then acc
    else
      let acc' := fm :: acc
      let curLen' := curLen + fm.length
      if RECENT_MESSAGES_COUNT ≤ acc'.length ∧ available < 2 * curLen' then acc'
      else distillLoop available rest acc' curLen'

def distill (history : List Msg) (maxChars : Nat := DEFAULT_MAX_DISTILLED_CHARS) : String :=
  -- `available_chars = max(0, max_chars - 100)`: Nat subtraction truncates at 0.
  let available := maxChars - 100
  let parts := distillLoop available history.reverse [] 0
  if parts.isEmpty then "No relevant recent context available (truncated)."
  else
    "--- Distilled Previous Context ---\n" ++ String.join parts ++
      "----------------------------------"

/-! ## `get_messages_to_summarize` -/

/-- Python `history[-10:] if len(history) > 10 else history`. -/
def keepRecentPart (history : List Msg) : List Msg :=
  if history.length > 10 then history.drop (history.length - 10) else history

/-- Python `history[:-10] if len(history) > 10 else []`. -/
def historyOldPart (history : List Msg) : List Msg :=
  if history.length > 10 then history.take (history.length - 10) else []

/-- The old messages not flagged `pinned`, in order — the candidates for
summarization before the count cut. -/
def summarizablePart (history : List Msg) : List Msg :=
  (historyOldPart history).filter fun m => !m.pinned

def get_messages_to_summarize (history : List Msg) (count : Nat) :
    List Msg × List Msg :=
  let keep_recent := keepRecentPart history
  let history_old := historyOldPart history
  let to_keep := history_old.filter fun m => m.pinned
  let to_summarize := history_old.filter fun m => !m.pinned
  let (to_summarize, to_keep) :=
    if to_summarize.length > count then
      (to_summarize.take count, to_keep ++ to_summarize.drop count)
    else (to_summarize, to_keep)
  (to_summarize, to_keep ++ keep_recent)

/-! ## `enforce_context_limit` -/

/-- Python `history[-KEEP_LAST_MESSAGES:]` — the kept tail. -/
def recentPartOf (history : List Msg) : List Msg :=
  history.drop (history.length - KEEP_LAST_MESSAGES)

/-- The hard-truncation loop: `while recent_history and
(estimate_token_count(recent_history) + sys_tokens > limit):
recent_history.pop(0)`. -/
def truncateRecent (sysTokens : Nat) (limit : Int) : List Msg → List Msg
  | [] => []
  | m :: rest =>
    if ((estimate_token_count (m :: rest) + sysTokens : Nat) : Int) > limit then
      truncateRecent sysTokens limit rest
    else m :: rest

/-- The synthetic summary message prepended by the normal pruning path. -/
def summaryMessageOf (summaryText : String) : Msg :=
  { role := "user"
    content := some
      ("[System Note: The beginning of this conversation has been summarized due to length constraints.]\n"
        ++ summaryText)
    parts := none
    pinned := false }

def enforce_context_limit (history : List Msg) (limit : Int)
    (systemInstruction : String := "") : List Msg :=
  -- `if not limit or limit <= 0: return history`
  if limit ≤ 0 then history
  else
    let currentTokens := estimate_token_count history + estimateStr systemInstruction
    if (currentTokens : Int) ≤ limit then history
    else
      let recent_history := recentPartOf history
      let older_history := history.take (history.length - KEEP_LAST_MESSAGES)
      let sysTokens := estimateStr systemInstruction
      let recentTokens := estimate_token_count recent_history
      let availableTokensForSummary : Int :=
        limit - (sysTokens : Int) - (recentTokens : Int) - 50
      if availableTokensForSummary < 0 then
        truncateRecent sysTokens limit recent_history
      else
        let maxSummaryChars := (availableTokensForSummary * 4).toNat
        let summaryText := distill older_history maxSummaryChars
        summaryMessageOf summaryText :: recent_history

/-! ## `router.py`: error taxonomy

`is_retryable_error` lowercases `str(error)` and tests substring membership.
Substring search is embedded as `strContains`. -/

/-- Tests whether `pat` occurs as a contiguous substring of `s` (Python `pat in s`). -/
def strContains (s pat : String) : Bool :=
  (List.range (s.data.length + 1)).any fun i => pat.data.isPrefixOf (s.data.drop i)

/-- Python `str.lower()`, character-wise (the error texts involved are
ASCII). -/
def strToLower (s : String) : String := String.mk (s.data.map Char.toLower)

def is_retryable_error (error : String) : Bool :=
  let errStr := strToLower error
  -- Hard exhaustion (quota / daily limits) is never retried.
  if strContains errStr "quota" || strContains errStr "daily" ||
      strContains errStr "exceeded your current" then false
  -- Transient rate limits.
  else if strContains errStr "429" || strContains errStr "rate limit" ||
      strContains errStr "too many requests" then true
  -- Transient server errors.
  else if ["500", "502", "503", "504"].any (fun code => strContains errStr code) then true
  else false

/-! ## `router.py`: data model

A provider is consumed through `generate(history, system_prompt)`, a lazy
stream that yields chunks and may raise at any point.  One `generate` call's
observable behaviour is a `GenResult`: the chunks it yields, then optionally
the error it raises.  The behaviour of the outside world during a turn is a
script of `GenResult`s consumed in call order; a script that runs out is read
as an empty successful stream. -/

structure ProviderSpec where
  name : String
  modelName : String
deriving DecidableEq, Repr

inductive Chunk where
  /-- A plain string chunk (a text fragment). -/
  | str (s : String)
  /-- A usage dict chunk: `\x7b"type": "usage", ...\x7d`. -/
  | usage (promptTokens completionTokens totalTokens : Nat)
  /-- Any other dict chunk (e.g. a tool call), passed through unchanged. -/
  | dict (payload : String)
deriving DecidableEq, Repr

structure GenResult where
  chunks : List Chunk
  err : Option String
deriving DecidableEq, Repr

/-- What `route` yields, in order.  `message` is a raw string yield of the
router itself, `streamed` a provider chunk passed through, the rest are the
`RouterEvent`s of the source with their data fields. -/
inductive REvent where
  | message (s : String)
  | system (s : String)
  | failover (providerName : String)
  | retryEv (providerName : String) (attempt maxR : Nat) (error : String) (wait : Nat)
  | usageEv (promptTokens completionTokens totalTokens : Nat) (totalCostAccumulated : ℚ)
  | streamed (c : Chunk)
deriving DecidableEq, Repr

/-- A call made to some provider's `generate(history, system_prompt)`. -/
structure GenCall where
  providerIdx : Nat
  prompt : String
  history : List Msg
deriving DecidableEq, Repr

structure RouterState where
  activeProviderIndex : Nat
  promptTokens : Nat
  completionTokens : Nat
  totalTokens : Nat
  totalCost : ℚ
deriving DecidableEq, Repr

structure RouterConfig where
  providers : List ProviderSpec
  sessionBudget : ℚ
  /-- The `- name: description` lines built from the tool registry
  (`tool_names_desc`); opaque here, the registry is outside the model. -/
  toolDescriptions : String
  sandboxEnabled : Bool
deriving DecidableEq, Repr

inductive RouteOutcome where
  | completed
  | raised (msg : String)
deriving DecidableEq, Repr

structure RouteResult where
  events : List REvent
  calls : List GenCall
  state : RouterState
  history : List Msg
  outcome : RouteOutcome
deriving DecidableEq, Repr

/-! ## Pricing and usage accounting -/

def PRICING_MAP : List (String × ℚ × ℚ) :=
  [("gemini-2.0-flash", (1/10, 2/5)),
   ("gemini-1.5-flash", (3/40, 3/10)),
   ("gemini-1.5-pro", (5/4, 5)),
   ("gpt-4o", (5/2, 10)),
   ("gpt-4o-mini", (3/20, 3/5)),
   ("claude-3-5-sonnet", (3, 15)),
   ("llama-3.3-70b-versatile", (59/100, 79/100))]

def calculate_cost (model : String) (promptTokens completionTokens : Nat) : ℚ :=
  let rates :=
    (((PRICING_MAP.find? fun x => x.1 == model.toLower).map Prod.snd).getD (1/2, 3/2))
  (promptTokens : ℚ) / 1000000 * rates.1 + (completionTokens : ℚ) / 1000000 * rates.2

/-! ## The inner streaming loop

Chunks of one `generate` stream, in order.  The first chunk commits
`active_provider_index` to the provider being streamed; usage chunks update
the session usage and are re-emitted as USAGE events carrying the running
total; all other chunks are yielded unchanged. -/

structure ChunksResult where
  events : List REvent
  state : RouterState
deriving DecidableEq, Repr

def processChunks (modelName : String) (actualIndex : Nat) :
    List Chunk → Bool → RouterState → ChunksResult
  | [], _, st => ⟨[], st⟩
  | c :: rest, firstChunk, st =>
    let st1 := if firstChunk then { st with activeProviderIndex := actualIndex } else st
    match c with
    | .usage p k t =>
      let cost := calculate_cost modelName p k
      let st2 :=
        { st1 with
          promptTokens := st1.promptTokens + p
          completionTokens := st1.completionTokens + k
          totalTokens := st1.totalTokens + t
          totalCost := st1.totalCost + cost }
      let r := processChunks modelName actualIndex rest false st2
      ⟨.usageEv p k t st2.totalCost :: r.events, r.state⟩
    | c =>
      let r := processChunks modelName actualIndex rest false st1
      ⟨.streamed c :: r.events, r.state⟩

def max_retries : Nat := 10
def MAX_HISTORY_MESSAGES : Nat := 40

structure AttemptResult where
  events : List REvent
  calls : List GenCall
  scriptRest : List GenResult
  state : RouterState
  failure : Option String
deriving DecidableEq, Repr

/-- The retry loop over one provider (`for attempt in range(max_retries + 1)`).
`retriesLeft = max_retries - attempt`, so `attempt < max_retries` is
`retriesLeft > 0`.  Returns the events yielded, the `generate` calls made, the
unconsumed script, the state, and `none` on success / `some e` when the
provider failed fatally (non-retryable error or retry budget exhausted). -/
def attemptLoop (provider : ProviderSpec) (actualIndex : Nat) (turnPrompt : String)
    (history : List Msg) :
    Nat → Nat → RouterState → List GenResult → AttemptResult
  | 0, _, st, script =>
    -- `attempt == max_retries`: a failure here is fatal even when retryable.
    let gen := script.headD ⟨[], none⟩
    let c := processChunks provider.modelName actualIndex gen.chunks true st
    match gen.err with
    | none => ⟨c.events, [⟨actualIndex, turnPrompt, history⟩], script.tail, c.state, none⟩
    | some e => ⟨c.events, [⟨actualIndex, turnPrompt, history⟩], script.tail, c.state, some e⟩
  | rl + 1, attempt, st, script =>
    let gen := script.headD ⟨[], none⟩
    let c := processChunks provider.modelName actualIndex gen.chunks true st
    match gen.err with
    | none => ⟨c.events, [⟨actualIndex, turnPrompt, history⟩], script.tail, c.state, none⟩
    | some e =>
      if is_retryable_error e then
        -- Exponential backoff: 1s, 2s, 4s, ... capped at 30s.
        let wait := min (2 ^ attempt) 30
        let r := attemptLoop provider actualIndex turnPrompt history rl (attempt + 1)
          c.state script.tail
        ⟨c.events ++ REvent.retryEv provider.name (attempt + 1) max_retries e wait :: r.events,
          ⟨actualIndex, turnPrompt, history⟩ :: r.calls, r.scriptRest, r.state, r.failure⟩
      else ⟨c.events, [⟨actualIndex, turnPrompt, history⟩], script.tail, c.state, some e⟩

/-- Python `"\n".join(items)`. -/
def joinLines : List String → String
  | [] => ""
  | [s] => s
  | s :: rest => s ++ "\n" ++ joinLines rest

def allFailedMessage (errs : List String) : String :=
  "\n[System Error]: All providers failed:\n" ++ joinLines errs

structure LoopResult where
  events : List REvent
  calls : List GenCall
  state : RouterState
  outcome : RouteOutcome
deriving DecidableEq, Repr

/-- The provider at a failover-order position (`self.providers[i]`; the
default is never reached at the in-range indices the loop produces). -/
def providerAt (cfg : RouterConfig) (i : Nat) : ProviderSpec :=
  cfg.providers.getD i ⟨"", ""⟩

/-- The failover-notification events and the turn prompt for the provider at
outer-loop iteration `i`: for `i > 0` a FAILOVER event naming the provider
and the base prompt with the distilled history appended. -/
def failoverPrefix (provider : ProviderSpec) (basePrompt : String) (history : List Msg)
    (i : Nat) : List REvent × String :=
  if 0 < i then
    ([REvent.failover provider.name],
      basePrompt ++ "\n\n[CONTEXT RESTORED]:\n" ++ distill history)
  else ([], basePrompt)

/-- The outer failover loop (`for i in range(num_providers)`), recursing on
the number of providers not yet tried.  When every provider is exhausted, the
collected errors are yielded as a single system-error message,
`active_provider_index` is reset to 0, and `RuntimeError("Failover
exhausted.")` is raised. -/
def providerLoop (cfg : RouterConfig) (basePrompt : String) (history : List Msg)
    (startIndex : Nat) :
    Nat → Nat → RouterState → List GenResult → List String → LoopResult
  | 0, _, st, _, errs =>
    ⟨[.message (allFailedMessage errs)], [], { st with activeProviderIndex := 0 },
      .raised "Failover exhausted."⟩
  | remaining + 1, i, st, script, errs =>
    let n := cfg.providers.length
    let actualIndex := (startIndex + i) % n
    let provider := providerAt cfg actualIndex
    let fp := failoverPrefix provider basePrompt history i
    let a := attemptLoop provider actualIndex fp.2 history max_retries 0 st script
    match a.failure with
    | none => ⟨fp.1 ++ a.events, a.calls, a.state, .completed⟩
    | some e =>
      let r :=
        providerLoop cfg basePrompt history startIndex remaining (i + 1) a.state a.scriptRest
          (errs ++ ["• " ++ provider.name ++ ": " ++ e])
      ⟨fp.1 ++ a.events ++ r.events, a.calls ++ r.calls, r.state, r.outcome⟩

/-! ## Summarization (`summarize_session`, invoked from step 1 of `route`) -/

def summarizePromptHeader : String :=
  "Summarize the following conversation history concisely, focusing on key decisions, findings, and completed tasks. Maintain essential technical details."

/-- The message that replaces the summarized prefix on success
(`pinned: True`). -/
def backgroundSummaryMsg (summaryText : String) : Msg :=
  { role := "system"
    content := some ("BACKGROUND SUMMARY of previous conversation:\n" ++ summaryText.trim)
    parts := none
    pinned := true }

/-- The string chunks of a stream, concatenated (`if isinstance(chunk, str):
summary_text += chunk`). -/
def strChunksText (chunks : List Chunk) : String :=
  String.join (chunks.filterMap fun c =>
    match c with
    | .str s => some s
    | _ => none)

structure SummarizeResult where
  events : List REvent
  history : List Msg
  scriptRest : List GenResult
  calls : List GenCall
  err : Option String
deriving DecidableEq, Repr

/-- Step 1 of `route`: when the history is over `MAX_HISTORY_MESSAGES`, yield
a system notice and run `summarize_session`.  That helper indexes
`self.providers[self.active_provider_index]` unguarded (an out-of-range index
raises `IndexError`), calls `generate([], prompt)` on it, swallows any
exception it raises, and on a non-empty summary replaces the history in
place.  Returns the events, the new history, the unconsumed script, the
calls made, and the Python error if one escaped. -/
def summarizePhase (cfg : RouterConfig) (st : RouterState) (history : List Msg)
    (script : List GenResult) : SummarizeResult :=
  if history.length > MAX_HISTORY_MESSAGES then
    let ev := REvent.system "Summarizing old conversation history to save context..."
    let ts := (get_messages_to_summarize history 20).1
    let tk := (get_messages_to_summarize history 20).2
    if ts.isEmpty then ⟨[ev], history, script, [], none⟩
    else
      match cfg.providers.get? st.activeProviderIndex with
      | none => ⟨[ev], history, script, [], some "list index out of range"⟩
      | some _ =>
        let gen := script.headD ⟨[], none⟩
        let script' := script.tail
        let prompt := summarizePromptHeader ++ "\n\n" ++ distill ts
        let call : GenCall := ⟨st.activeProviderIndex, prompt, []⟩
        match gen.err with
        | some _ => ⟨[ev], history, script', [call], none⟩
        | none =>
          let summaryText := strChunksText gen.chunks
          if summaryText = "" then ⟨[ev], history, script', [call], none⟩
          else ⟨[ev], backgroundSummaryMsg summaryText :: tk, script', [call], none⟩
  else ⟨[], history, script, [], none⟩

/-! ## The system prompt and budget notice -/

/-- Renders a nonnegative rational as Python's `f"..{x:.2f}"` does for the
short decimal amounts used for budgets (truncated to cents). -/
def fmtTwoDecimals (q : ℚ) : String :=
  let cents := (q * 100).floor.toNat
  toString (cents / 100) ++ "." ++ (if cents % 100 < 10 then "0" else "") ++
    toString (cents % 100)

def budgetExceededMessage (totalCost budget : ℚ) : String :=
  "\n[ERROR] Session budget exceeded ($" ++ fmtTwoDecimals totalCost ++ " >= $" ++
    fmtTwoDecimals budget ++ ")."

def sandboxNoticeOf (cfg : RouterConfig) : String :=
  if cfg.sandboxEnabled then "\n\nENVIRONMENT: Persistent Docker Sandbox active." else ""

/-- The `default_prompt_template.format(...)` string built by `route`. -/
def defaultPromptOf (cfg : RouterConfig) : String :=
  "You are Plexir, an advanced AI Assistant.\nCRITICAL: You have ACCESS to system tools. Use them proactively"
    ++ sandboxNoticeOf cfg ++
    "\n\n# Core Instructions\n1. **Plan First**: For complex tasks, use the `scratchpad` to outline your plan before executing code.\n2. **Context is King**: If you are unsure where code is located, use `codebase_search` to find it. Do not guess file paths.\n3. **Verify**: After editing files, use `grep_search` or `read_file` to verify the changes were applied correctly.\n4. **Safety**: When using `edit_file` or `write_file`, you will be asked for confirmation. Ensure your edits are precise.\n\nAvailable Tools:\n"
    ++ cfg.toolDescriptions ++ "\n"

/-- Python `system_instruction or default_prompt_template.format(...)` (the empty
string is falsy). -/
def basePromptOf (cfg : RouterConfig) (systemInstruction : String) : String :=
  if systemInstruction = "" then defaultPromptOf cfg else systemInstruction

/-! ## `Router.route` -/

def route (cfg : RouterConfig) (st : RouterState) (history : List Msg)
    (systemInstruction : String) (script : List GenResult) : RouteResult :=
  -- 0. Budget check.
  if 0 < cfg.sessionBudget ∧ cfg.sessionBudget ≤ st.totalCost then
    { events := [.message (budgetExceededMessage st.totalCost cfg.sessionBudget)]
      calls := [], state := st, history := history, outcome := .completed }
  else
    -- 1. Summarization check.
    let s := summarizePhase cfg st history script
    match s.err with
    | some e => { events := s.events, calls := s.calls, state := st, history := s.history,
                  outcome := .raised e }
    | none =>
      let n := cfg.providers.length
      if n = 0 then
        { events := s.events ++ [.message "\n[System Error]: No LLM providers available."]
          calls := s.calls, state := st, history := s.history, outcome := .completed }
      else
        let basePrompt := basePromptOf cfg systemInstruction
        let startIndex := if st.activeProviderIndex ≥ n then 0 else st.activeProviderIndex
        let st1 := { st with activeProviderIndex := startIndex }
        let r := providerLoop cfg basePrompt s.history startIndex n 0 st1 s.scriptRest []
        { events := s.events ++ r.events, calls := s.calls ++ r.calls, state := r.state,
          history := s.history, outcome := r.outcome }

/-! ## `mcp/client.py`: request/response correlation

The pending-request table of `MCPClient` is modelled as an explicit state
machine.  State: the `running` flag, the last allocated `_request_id`, the
ids of the still-pending futures (insertion order), and a log of every
future resolution with its outcome.  The interleaving of `send_request`
calls, read-loop deliveries, `wait_for` timeouts and `disconnect` is an
event trace:

* `sendRequest` — `send_request` raises immediately when not running;
  otherwise it increments `_request_id` and stores one fresh pending future
  under the new id before writing the request.
* `response id payload` — the read loop receives a message with an `id`:
  a matching pending future is popped and resolved (`result` → value,
  `error` → `JSONRPCError`, neither → `None` ack); an unknown id is dropped.
  No messages are read once the loop has stopped.
* `timeoutFire id` — `asyncio.wait_for` timed out on a future that is still
  pending (a completed future cannot time out): the entry is deleted and the
  caller observes a timeout failure.
* `disconnect` — idempotent; cancels every pending future and clears the
  table. -/

namespace MCP

inductive ResponsePayload where
  /-- A response carrying a `result` field. -/
  | ok (s : String)
  /-- A response carrying an `error` field. -/
  | err (code : Int) (msg : String)
  /-- A response with an `id` but neither `result` nor `error`
  (`future.set_result(None)`). -/
  | ack
deriving DecidableEq, Repr

inductive MOutcome where
  /-- `future.set_result(...)`; `none` is Python `None`. -/
  | result (payload : Option String)
  /-- `future.set_exception(JSONRPCError(code, message, ...))`. -/
  | rpcError (code : Int) (msg : String)
  /-- The `asyncio.TimeoutError` path of `send_request`. -/
  | timeout
  /-- `future.cancel()` from `disconnect`. -/
  | cancelled
deriving DecidableEq, Repr

def outcomeOf : ResponsePayload → MOutcome
  | .ok s => .result (some s)
  | .err c m => .rpcError c m
  | .ack => .result none

inductive MEvent where
  | sendRequest (method : String)
  | response (id : Nat) (payload : ResponsePayload)
  | timeoutFire (id : Nat)
  | disconnect
deriving DecidableEq, Repr

structure ClientState where
  running : Bool
  requestId : Nat
  pending : List Nat
  resolutions : List (Nat × MOutcome)
deriving DecidableEq, Repr

/-- The state right after a successful `connect` (before the handshake
requests, which are ordinary `send_request` calls). -/
def initState : ClientState :=
  { running := true, requestId := 0, pending := [], resolutions := [] }

def step (s : ClientState) : MEvent → ClientState
  | .sendRequest _ =>
    if s.running then
      { s with requestId := s.requestId + 1, pending := s.pending ++ [s.requestId + 1] }
    else s
  | .response id payload =>
    if s.running ∧ id ∈ s.pending then
      { s with
        pending := s.pending.erase id
        resolutions := s.resolutions ++ [(id, outcomeOf payload)] }
    else s
  | .timeoutFire id =>
    if id ∈ s.pending then
      { s with
        pending := s.pending.erase id
        resolutions := s.resolutions ++ [(id, .timeout)] }
    else s
  | .disconnect =>
    if s.running then
      { s with
        running := false
        pending := []
        resolutions := s.resolutions ++ s.pending.map fun i => (i, .cancelled) }
    else s

def run (tr : List MEvent) : ClientState :=
  tr.foldl step initState

end MCP

/-! ## Event classifiers and expected event shapes used by the statements -/

def REvent.isRetry : REvent → Bool
  | .retryEv _ _ _ _ _ => true
  | _ => false

def REvent.isFailoverEv : REvent → Bool
  | .failover _ => true
  | _ => false

/-- The RETRY events the inner loop is expected to emit for a run of failed
attempts starting at attempt number `attempt` (0-based): the j-th entry
reports attempt `attempt + j + 1` of `max_retries`, the attempt's error, and
the backoff delay `min(2 ^ (attempt + j), 30)` — the base delay doubled per
attempt and capped at 30. -/
def expectedRetries (name : String) : Nat → List GenResult → List REvent
  | _, [] => []
  | attempt, f :: fs =>
    .retryEv name (attempt + 1) max_retries (f.err.getD "") (min (2 ^ attempt) 30) ::
      expectedRetries name (attempt + 1) fs

/-! ## The spec's error taxonomy (§7), as substring predicates over the
lowercased error text -/

/-- Hard-exhaustion phrasing: quota / daily-limit wording. -/
def mentionsHardExhaustion (errStr : String) : Bool :=
  strContains errStr "quota" || strContains errStr "daily" ||
    strContains errStr "exceeded your current"

/-- Generic rate-limit phrasing (HTTP 429 and friends). -/
def mentionsRateLimit (errStr : String) : Bool :=
  strContains errStr "429" || strContains errStr "rate limit" ||
    strContains errStr "too many requests"

/-- The transient server codes the classifier actually tests (note: only
500, 502, 503 and 504 — not the whole 5xx class). -/
def mentionsServerCode (errStr : String) : Bool :=
  ["500", "502", "503", "504"].any fun code => strContains errStr code

/-! ## Concrete sample data for witnesses and counterexamples -/

namespace Samples

def msgN (i : Nat) : Msg := ⟨"user", some (toString i), none, false⟩

def pinnedN (i : Nat) : Msg := ⟨"user", some (toString i), none, true⟩

/-- A message whose content estimates to 10 tokens. -/
def bigMsg : Msg := ⟨"user", some (String.mk (List.replicate 40 'x')), none, false⟩

/-- A message whose content estimates to 0 tokens. -/
def tinyMsg : Msg := ⟨"user", some "hey", none, false⟩

/-- Five messages whose 4-message tail alone exceeds a limit of 5. -/
def hardHist : List Msg := [bigMsg, bigMsg, bigMsg, bigMsg, tinyMsg]

/-- A 15-message history with one pinned old message. -/
def histFifteen : List Msg :=
  [msgN 0, pinnedN 1, msgN 2, msgN 3, msgN 4, msgN 5, msgN 6, msgN 7,
   msgN 8, msgN 9, msgN 10, msgN 11, msgN 12, msgN 13, msgN 14]

def cfgOne : RouterConfig := ⟨[⟨"Gemini", "gemini-2.0-flash"⟩], 0, "- tools", false⟩

def cfgTwo : RouterConfig := ⟨[⟨"alpha", "model-a"⟩, ⟨"beta", "model-b"⟩], 0, "- tools", false⟩

def cfgBudget : RouterConfig := ⟨[⟨"Gemini", "gemini-2.0-flash"⟩], 1/10, "- tools", false⟩

def st0 : RouterState := ⟨0, 0, 0, 0, 0⟩

def stCost : RouterState := ⟨0, 0, 0, 0, 15/100⟩

def scriptRetry : List GenResult :=
  [⟨[], some "429 rate limit"⟩, ⟨[.str "hi"], none⟩]

def scriptFailover : List GenResult :=
  [⟨[], some "You exceeded your daily quota"⟩, ⟨[.str "ok"], none⟩]

def scriptAllFail : List GenResult :=
  List.replicate 22 ⟨[], some "quota"⟩

/-- Requests 1..3 answered in reverse order, then a response for an id that
was never allocated. -/
def demoTrace : List MCP.MEvent :=
  [.sendRequest "tools/list", .sendRequest "resources/list", .sendRequest "prompts/list",
   .response 3 (.ok "P"), .response 2 (.ok "R"), .response 1 (.ok "T"),
   .response 9 (.ok "ghost")]

end Samples

/-! # Theorems -/

/-! ## Context Manager: summarization split (claims C7 and C10) -/

theorem historyOld_append_keepRecent (h : List Msg) :
    historyOldPart h ++ keepRecentPart h = h := by
  unfold historyOldPart keepRecentPart
  by_cases hc : h.length > 10
  · simp only [if_pos hc]
    exact List.take_append_drop _ h
  · simp only [if_neg hc]
    rfl

theorem gmts_eq (h : List Msg) (c : Nat) :
    get_messages_to_summarize h c =
      if (summarizablePart h).length > c then
        ((summarizablePart h).take c,
          ((historyOldPart h).filter (fun m => m.pinned) ++ (summarizablePart h).drop c)
            ++ keepRecentPart h)
      else
        (summarizablePart h,
          (historyOldPart h).filter (fun m => m.pinned) ++ keepRecentPart h) := by
  simp only [get_messages_to_summarize, summarizablePart]
  split <;> rfl

/-- C10: for every history and count, the two lists returned by
`get_messages_to_summarize` form a partition of the input history — every
input message appears exactly once across the two outputs combined (as
multisets: the concatenation of the outputs is a permutation of the input),
so nothing is dropped, duplicated or modified. -/
theorem summarize_split_partition (h : List Msg) (c : Nat) :
    List.Perm ((get_messages_to_summarize h c).1 ++ (get_messages_to_summarize h c).2) h := by
  have hsplit := historyOld_append_keepRecent h
  have hperm : List.Perm
      ((historyOldPart h).filter (fun m => m.pinned) ++ summarizablePart h)
      (historyOldPart h) := by
    unfold summarizablePart
    exact List.filter_append_perm (fun m => m.pinned) (historyOldPart h)
  rw [gmts_eq]
  rw [List.perm_iff_count]
  intro a
  split
  · simp only [List.count_append]
    have h1 : List.count a ((summarizablePart h).take c) +
        List.count a ((summarizablePart h).drop c) = List.count a (summarizablePart h) := by
      rw [← List.count_append, List.take_append_drop]
    have h2 : List.count a ((historyOldPart h).filter (fun m => m.pinned)) +
        List.count a (summarizablePart h) = List.count a (historyOldPart h) := by
      rw [← List.count_append]
      exact hperm.count_eq a
    have h3 : List.count a (historyOldPart h) + List.count a (keepRecentPart h) =
        List.count a h := by
      rw [← List.count_append, hsplit]
    omega
  · simp only [List.count_append]
    have h2 : List.count a ((historyOldPart h).filter (fun m => m.pinned)) +
        List.count a (summarizablePart h) = List.count a (historyOldPart h) := by
      rw [← List.count_append]
      exact hperm.count_eq a
    have h3 : List.count a (historyOldPart h) + List.count a (keepRecentPart h) =
        List.count a h := by
      rw [← List.count_append, hsplit]
    omega

/-- C7: for every history and requested count, (a) no message with
`pinned == true` appears in the `to_summarize` output, (b) the last 10
messages of the history (the whole history when it has at most 10) are a
suffix of `to_keep` regardless of pin state, and (c) when the summarizable
set exceeds the requested count, only its oldest `count` messages are
selected and the overflow block is kept (it occurs contiguously inside
`to_keep`). -/
theorem summarize_split_pinned_invariant (h : List Msg) (c : Nat) :
    (∀ m ∈ (get_messages_to_summarize h c).1, m.pinned = false) ∧
    keepRecentPart h <:+ (get_messages_to_summarize h c).2 ∧
    ((summarizablePart h).length > c →
      (get_messages_to_summarize h c).1 = (summarizablePart h).take c ∧
      (summarizablePart h).drop c <:+: (get_messages_to_summarize h c).2) := by
  have hpin : ∀ m ∈ summarizablePart h, m.pinned = false := by
    intro m hm
    have := (List.mem_filter.mp hm).2
    simpa using this
  rw [gmts_eq]
  split
  case isTrue hgt =>
    refine ⟨?_, List.suffix_append _ _, fun _ => ⟨rfl, ?_⟩⟩
    · intro m hm
      exact hpin m (List.mem_of_mem_take hm)
    · exact ⟨(historyOldPart h).filter (fun m => m.pinned), keepRecentPart h,
        by rw [List.append_assoc]⟩
  case isFalse hle =>
    exact ⟨hpin, List.suffix_append _ _, fun hgt => absurd hgt hle⟩

/-- C7 witness: a concrete 15-message history with one pinned old message and
count 2 discharges the hypothesis of the overflow clause. -/
theorem summarize_split_pinned_invariant_witness :
    (summarizablePart Samples.histFifteen).length > 2 ∧
    (get_messages_to_summarize Samples.histFifteen 2).1 =
      (summarizablePart Samples.histFifteen).take 2 ∧
    (summarizablePart Samples.histFifteen).drop 2 <:+:
      (get_messages_to_summarize Samples.histFifteen 2).2 :=
  ⟨by decide, (summarize_split_pinned_invariant Samples.histFifteen 2).2.2 (by decide)⟩

/-! ## Context Manager: limit enforcement (claims C8 and C9) -/

theorem estimate_take_add_drop (l : List Msg) (n : Nat) :
    estimate_token_count (l.take n) + estimate_token_count (l.drop n) =
      estimate_token_count l := by
  unfold estimate_token_count
  rw [← List.sum_append, ← List.map_append, List.take_append_drop]

/-- C8: `enforce_context_limit` is a no-op whenever the limit is
non-positive (for every input, any system instruction included), and returns
the history unchanged whenever the estimated token count of the history with
an empty system instruction is within the limit. -/
theorem enforce_noop_within_limit (h : List Msg) (limit : Int) (s : String) :
    (limit ≤ 0 → enforce_context_limit h limit s = h) ∧
    ((estimate_token_count h : Int) ≤ limit → enforce_context_limit h limit "" = h) := by
  constructor
  · intro hle
    unfold enforce_context_limit
    rw [if_pos hle]
  · intro hle
    unfold enforce_context_limit
    by_cases h0 : limit ≤ 0
    · rw [if_pos h0]
    · rw [if_neg h0]
      have hz : estimateStr "" = 0 := rfl
      simp only [hz, Nat.add_zero]
      rw [if_pos hle]

/-- C8 witness: both no-op clauses at concrete inputs. -/
theorem enforce_noop_within_limit_witness :
    ((-3 : Int) ≤ 0 ∧ enforce_context_limit [Samples.bigMsg] (-3) "sys" = [Samples.bigMsg]) ∧
    ((estimate_token_count [Samples.bigMsg] : Int) ≤ 100 ∧
      enforce_context_limit [Samples.bigMsg] 100 "" = [Samples.bigMsg]) :=
  ⟨⟨by decide, (enforce_noop_within_limit [Samples.bigMsg] (-3) "sys").1 (by decide)⟩,
   ⟨by decide, (enforce_noop_within_limit [Samples.bigMsg] 100 "").2 (by decide)⟩⟩

theorem truncateRecent_suffix_spec (sysT : Nat) (limit : Int) (l : List Msg) :
    ∃ k, truncateRecent sysT limit l = l.drop k ∧
      (truncateRecent sysT limit l = [] ∨
        ((estimate_token_count (truncateRecent sysT limit l) + sysT : Nat) : Int) ≤ limit) ∧
      ∀ j, j < k → limit < ((estimate_token_count (l.drop j) + sysT : Nat) : Int) := by
  induction l with
  | nil => exact ⟨0, rfl, Or.inl rfl, by omega⟩
  | cons m rest ih =>
    by_cases hc : limit < ((estimate_token_count (m :: rest) + sysT : Nat) : Int)
    · obtain ⟨k, hk, hfits, hmin⟩ := ih
      have hstep : truncateRecent sysT limit (m :: rest) = truncateRecent sysT limit rest := by
        rw [truncateRecent, if_pos hc]
      refine ⟨k + 1, ?_, ?_, ?_⟩
      · rw [hstep, List.drop_succ_cons]
        exact hk
      · rw [hstep]
        exact hfits
      · intro j hj
        match j with
        | 0 => simpa using hc
        | j' + 1 =>
          rw [List.drop_succ_cons]
          exact hmin j' (by omega)
    · refine ⟨0, ?_, ?_, by omega⟩
      · rw [truncateRecent, if_neg hc, List.drop_zero]
      · rw [truncateRecent, if_neg hc]
        exact Or.inr (by omega)

/-- C9 (amended): for every history and positive limit where the kept tail of
the last `KEEP_LAST_MESSAGES` messages alone exceeds the limit,
`enforce_context_limit` drops messages from the front of that tail until the
remainder fits the limit or is empty and returns exactly that remainder (the
truncation is only logged as a warning; the return value carries no flag —
see the counterexample). -/
theorem enforce_hard_truncation (h : List Msg) (limit : Int)
    (hpos : 0 < limit)
    (hover : limit < (estimate_token_count (recentPartOf h) : Int)) :
    ∃ k, enforce_context_limit h limit "" = (recentPartOf h).drop k ∧
      (enforce_context_limit h limit "" = [] ∨
        (estimate_token_count (enforce_context_limit h limit "") : Int) ≤ limit) ∧
      ∀ j, j < k → limit < (estimate_token_count ((recentPartOf h).drop j) : Int) := by
  have hrecle : estimate_token_count (recentPartOf h) ≤ estimate_token_count h := by
    have := estimate_take_add_drop h (h.length - KEEP_LAST_MESSAGES)
    unfold recentPartOf
    omega
  have hred : enforce_context_limit h limit "" = truncateRecent 0 limit (recentPartOf h) := by
    unfold enforce_context_limit
    rw [if_neg (by omega)]
    have hz : estimateStr "" = 0 := rfl
    simp only [hz, Nat.add_zero, Nat.cast_zero, Int.sub_zero]
    rw [if_neg (by omega), if_pos (by omega)]
  rw [hred]
  have hspec := truncateRecent_suffix_spec 0 limit (recentPartOf h)
  simpa using hspec

/-- C9 witness: a concrete five-message history whose four-message tail
estimates to 30 tokens against a limit of 5. -/
theorem enforce_hard_truncation_witness :
    ((0 : Int) < 5 ∧ (5 : Int) < (estimate_token_count (recentPartOf Samples.hardHist) : Int)) ∧
    ∃ k, enforce_context_limit Samples.hardHist 5 "" = (recentPartOf Samples.hardHist).drop k ∧
      (enforce_context_limit Samples.hardHist 5 "" = [] ∨
        (estimate_token_count (enforce_context_limit Samples.hardHist 5 "") : Int) ≤ 5) ∧
      ∀ j, j < k → (5 : Int) < (estimate_token_count ((recentPartOf Samples.hardHist).drop j) : Int) :=
  ⟨⟨by decide, by decide⟩,
    enforce_hard_truncation Samples.hardHist 5 (by decide) (by decide)⟩

/-- C9 counterexample: the claim's "flags this hard, lossy truncation as such
to the caller" is false — the only caller-visible output of
`enforce_context_limit` is the returned list, and the hard-truncation path
returns a value identical to what the untouched no-op path returns for
another input, so the caller cannot tell a lossy truncation happened.  Here
`hardHist` (tail estimate 30 > limit 5) is truncated to `[tinyMsg]`, and the
same `[tinyMsg]` is returned unchanged (no pruning at all) for the input
`[tinyMsg]`. -/
theorem enforce_truncation_not_flagged :
    (5 : Int) < (estimate_token_count (recentPartOf Samples.hardHist) : Int) ∧
    enforce_context_limit Samples.hardHist 5 "" = [Samples.tinyMsg] ∧
    (estimate_token_count [Samples.tinyMsg] : Int) ≤ 5 ∧
    enforce_context_limit [Samples.tinyMsg] 5 "" = [Samples.tinyMsg] :=
  ⟨by decide, by decide, by decide, by decide⟩

/-! ## Error taxonomy (claim C6) -/

theorem classify_shape (A B C : Bool) :
    (if A then false else if B then true else if C then true else false) =
      (!A && (B || C)) := by
  cases A <;> cases B <;> cases C <;> rfl

/-- C6 counterexample: the claim "errors carrying HTTP-class 429/5xx codes or
generic rate-limit phrasing are classified retryable" is false as stated —
an error that carries a 429 code together with quota phrasing (the usual
wording of a Gemini quota error) is classified non-retryable, because the
quota/daily check runs first. -/
theorem taxonomy_counterexample :
    strContains (strToLower "Error 429: you have exceeded your current quota") "429" = true ∧
    is_retryable_error "Error 429: you have exceeded your current quota" = false :=
  ⟨by decide, by decide⟩

/-- C6 (amended): the classifier applies the hard-exhaustion check first —
an error whose lowercased text carries quota/daily-limit phrasing is
non-retryable even when it also carries a 429/5xx code; otherwise an error is
retryable exactly when it carries rate-limit phrasing (429 / "rate limit" /
"too many requests") or one of the server codes 500, 502, 503, 504 (not the
whole 5xx class); anything matching neither pattern is non-retryable (treated
as hard exhaustion). -/
theorem taxonomy_classification (e : String) :
    (mentionsHardExhaustion (strToLower e) = true → is_retryable_error e = false) ∧
    is_retryable_error e =
      (!mentionsHardExhaustion (strToLower e) &&
        (mentionsRateLimit (strToLower e) || mentionsServerCode (strToLower e))) := by
  have key : is_retryable_error e =
      (!mentionsHardExhaustion (strToLower e) &&
        (mentionsRateLimit (strToLower e) || mentionsServerCode (strToLower e))) := by
    simp only [is_retryable_error, mentionsHardExhaustion, mentionsRateLimit,
      mentionsServerCode]
    exact classify_shape _ _ _
  refine ⟨fun hh => ?_, key⟩
  rw [key, hh]
  rfl

/-- C6 witness: the amended classification at concrete errors of each class. -/
theorem taxonomy_classification_witness :
    (mentionsHardExhaustion (strToLower "Daily quota exceeded") = true ∧
      is_retryable_error "Daily quota exceeded" = false) ∧
    is_retryable_error "503 Service Unavailable" = true ∧
    is_retryable_error "connection reset by peer" = false :=
  ⟨⟨by decide, (taxonomy_classification "Daily quota exceeded").1 (by decide)⟩,
    by decide, by decide⟩

/-! ## Orchestrator: budget check (claim C4) -/

/-- C4: when the session budget is positive and the accumulated total cost
has reached it, `route` yields exactly one budget-exceeded notice and stops:
no `generate` call is made (no provider is contacted), no summarization or
other event is emitted, the state is untouched and the outcome is normal
completion (no exception). -/
theorem budget_exceeded_stops (cfg : RouterConfig) (st : RouterState) (history : List Msg)
    (sys : String) (script : List GenResult)
    (h1 : 0 < cfg.sessionBudget) (h2 : cfg.sessionBudget ≤ st.totalCost) :
    route cfg st history sys script =
      { events := [.message (budgetExceededMessage st.totalCost cfg.sessionBudget)]
        calls := [], state := st, history := history, outcome := .completed } := by
  unfold route
  rw [if_pos ⟨h1, h2⟩]

/-- C4 witness: the spec's own numbers — `total_cost = 0.15`,
`budget = 0.10`. -/
theorem budget_exceeded_stops_witness :
    (0 < Samples.cfgBudget.sessionBudget ∧
      Samples.cfgBudget.sessionBudget ≤ Samples.stCost.totalCost) ∧
    route Samples.cfgBudget Samples.stCost [Samples.msgN 1] "" [] =
      { events := [.message (budgetExceededMessage Samples.stCost.totalCost
          Samples.cfgBudget.sessionBudget)]
        calls := [], state := Samples.stCost, history := [Samples.msgN 1]
        outcome := .completed } :=
  ⟨⟨by norm_num [Samples.cfgBudget], by norm_num [Samples.cfgBudget, Samples.stCost]⟩,
    budget_exceeded_stops Samples.cfgBudget Samples.stCost [Samples.msgN 1] "" []
      (by norm_num [Samples.cfgBudget])
      (by norm_num [Samples.cfgBudget, Samples.stCost])⟩

/-! ## Orchestrator: streaming-loop lemmas -/

theorem processChunks_events_shape (mn : String) (idx : Nat) :
    ∀ (chunks : List Chunk) (b : Bool) (st : RouterState),
      ∀ ev ∈ (processChunks mn idx chunks b st).events,
        ev.isRetry = false ∧ ev.isFailoverEv = false := by
  intro chunks
  induction chunks with
  | nil =>
    intro b st ev hev
    simp [processChunks] at hev
  | cons c rest ih =>
    intro b st ev hev
    cases c with
    | usage p k t =>
      simp only [processChunks, List.mem_cons] at hev
      rcases hev with h | h
      · subst h; exact ⟨rfl, rfl⟩
      · exact ih false _ ev h
    | str s =>
      simp only [processChunks, List.mem_cons] at hev
      rcases hev with h | h
      · subst h; exact ⟨rfl, rfl⟩
      · exact ih false _ ev h
    | dict payload =>
      simp only [processChunks, List.mem_cons] at hev
      rcases hev with h | h
      · subst h; exact ⟨rfl, rfl⟩
      · exact ih false _ ev h

theorem processChunks_filter_retry (mn : String) (idx : Nat) (chunks : List Chunk)
    (b : Bool) (st : RouterState) :
    (processChunks mn idx chunks b st).events.filter REvent.isRetry = [] :=
  List.filter_eq_nil_iff.mpr fun ev hev => by
    simp [(processChunks_events_shape mn idx chunks b st ev hev).1]

theorem processChunks_filter_failover (mn : String) (idx : Nat) (chunks : List Chunk)
    (b : Bool) (st : RouterState) :
    (processChunks mn idx chunks b st).events.filter REvent.isFailoverEv = [] :=
  List.filter_eq_nil_iff.mpr fun ev hev => by
    simp [(processChunks_events_shape mn idx chunks b st ev hev).2]

theorem processChunks_aPI_false (mn : String) (idx : Nat) :
    ∀ (chunks : List Chunk) (st : RouterState),
      ((processChunks mn idx chunks false st).state).activeProviderIndex =
        st.activeProviderIndex := by
  intro chunks
  induction chunks with
  | nil => intro st; rfl
  | cons c rest ih =>
    intro st
    cases c with
    | usage p k t => simpa [processChunks] using ih _
    | str s => simpa [processChunks] using ih _
    | dict payload => simpa [processChunks] using ih _

theorem processChunks_aPI_true (mn : String) (idx : Nat) :
    ∀ (chunks : List Chunk) (st : RouterState), chunks ≠ [] →
      ((processChunks mn idx chunks true st).state).activeProviderIndex = idx := by
  intro chunks st hne
  cases chunks with
  | nil => exact absurd rfl hne
  | cons c rest =>
    cases c with
    | usage p k t => simpa [processChunks] using processChunks_aPI_false mn idx rest _
    | str s => simpa [processChunks] using processChunks_aPI_false mn idx rest _
    | dict payload => simpa [processChunks] using processChunks_aPI_false mn idx rest _

theorem processChunks_aPI_keep (mn : String) (idx : Nat) (chunks : List Chunk)
    (st : RouterState) (h : st.activeProviderIndex = idx) :
    ((processChunks mn idx chunks true st).state).activeProviderIndex = idx := by
  cases chunks with
  | nil => exact h
  | cons c rest => exact processChunks_aPI_true mn idx (c :: rest) st (by simp)

/-! ## Orchestrator: retry-loop lemma (towards claim C1) -/

theorem attemptLoop_retries (provider : ProviderSpec) (actualIndex : Nat) (prompt : String)
    (history : List Msg) (succEntry : GenResult) (rest : List GenResult)
    (hs : succEntry.err = none) :
    ∀ (fails : List GenResult) (retriesLeft attempt : Nat) (st : RouterState),
      (∀ f ∈ fails, ∃ e, f.err = some e ∧ is_retryable_error e = true) →
      fails.length ≤ retriesLeft →
      ∃ evs st',
        attemptLoop provider actualIndex prompt history retriesLeft attempt st
            (fails ++ succEntry :: rest) =
          ⟨evs, List.replicate (fails.length + 1) ⟨actualIndex, prompt, history⟩,
            rest, st', none⟩ ∧
        evs.filter REvent.isRetry = expectedRetries provider.name attempt fails ∧
        evs.filter REvent.isFailoverEv = [] ∧
        (st.activeProviderIndex = actualIndex → st'.activeProviderIndex = actualIndex) := by
  intro fails
  induction fails with
  | nil =>
    intro retriesLeft attempt st _ _
    refine ⟨(processChunks provider.modelName actualIndex succEntry.chunks true st).events,
      (processChunks provider.modelName actualIndex succEntry.chunks true st).state,
      ?_, processChunks_filter_retry _ _ _ _ _, processChunks_filter_failover _ _ _ _ _,
      fun h => processChunks_aPI_keep _ _ _ _ h⟩
    cases retriesLeft with
    | zero =>
      rw [attemptLoop]
      simp only [List.nil_append, List.headD_cons, List.tail_cons, hs]
      rfl
    | succ rl =>
      rw [attemptLoop]
      simp only [List.nil_append, List.headD_cons, List.tail_cons, hs]
      rfl
  | cons f fs ih =>
    intro retriesLeft attempt st hf hlen
    obtain ⟨e, he, hre⟩ := hf f (List.mem_cons_self f fs)
    obtain ⟨rl, rfl⟩ : ∃ rl, retriesLeft = rl + 1 :=
      ⟨retriesLeft - 1, by simp at hlen; omega⟩
    set st1 := (processChunks provider.modelName actualIndex f.chunks true st).state with hst1
    obtain ⟨evs', st', heq, hfret, hffail, haPI⟩ :=
      ih rl (attempt + 1) st1 (fun g hg => hf g (List.mem_cons_of_mem f hg))
        (by simp at hlen; omega)
    refine ⟨(processChunks provider.modelName actualIndex f.chunks true st).events ++
        REvent.retryEv provider.name (attempt + 1) max_retries e (min (2 ^ attempt) 30) :: evs',
      st', ?_, ?_, ?_, ?_⟩
    · rw [attemptLoop]
      simp only [List.cons_append, List.headD_cons, List.tail_cons, he, hre, ← hst1, heq]
      rfl
    · rw [List.filter_append]
      rw [processChunks_filter_retry]
      simp only [List.nil_append, List.filter_cons]
      rw [expectedRetries]
      simp [hfret, he, REvent.isRetry]
    · rw [List.filter_append]
      rw [processChunks_filter_failover]
      simp only [List.nil_append, List.filter_cons]
      simp [hffail, REvent.isFailoverEv]
    · intro h
      exact haPI (processChunks_aPI_keep _ _ _ _ h)

/-! ## Orchestrator: summarization-phase event shape -/

theorem summarizePhase_events_shape (cfg : RouterConfig) (st : RouterState)
    (history : List Msg) (script : List GenResult) :
    (summarizePhase cfg st history script).events = [] ∨
    (summarizePhase cfg st history script).events =
      [REvent.system "Summarizing old conversation history to save context..."] := by
  simp only [summarizePhase]
  split
  · right
    repeat' split
    all_goals rfl
  · exact Or.inl rfl

theorem summarizePhase_filter_retry (cfg : RouterConfig) (st : RouterState)
    (history : List Msg) (script : List GenResult) :
    (summarizePhase cfg st history script).events.filter REvent.isRetry = [] := by
  rcases summarizePhase_events_shape cfg st history script with h | h <;> rw [h] <;> rfl

theorem summarizePhase_filter_failover (cfg : RouterConfig) (st : RouterState)
    (history : List Msg) (script : List GenResult) :
    (summarizePhase cfg st history script).events.filter REvent.isFailoverEv = [] := by
  rcases summarizePhase_events_shape cfg st history script with h | h <;> rw [h] <;> rfl

/-! ## Claim C1 -/

/-- C1: for every turn in which the active provider's `generate` raises a
retryable (transient) error on each of its first `k` attempts, `k` below the
retry ceiling of `max_retries = 10`, and then streams successfully, `route`
(a) calls `generate` on that same provider exactly `k + 1` times with the
same prompt (after whatever calls the summarization phase made), (b) emits
exactly one RETRY event per failed attempt, in attempt order — the j-th
carrying attempt number `j + 1`, the attempt's error and the backoff delay
`min(2 ^ j, 30)`, the base delay doubled per attempt and capped at 30 — (c)
emits no FAILOVER event, (d) completes the turn normally, and (e) leaves the
first provider still active (`active_provider_index` unchanged). -/
theorem transient_retries_same_provider (cfg : RouterConfig) (st : RouterState)
    (history : List Msg) (sys : String) (script : List GenResult)
    (ev1 : List REvent) (h1 : List Msg) (calls1 : List GenCall)
    (fails : List GenResult) (succEntry : GenResult) (rest : List GenResult)
    (hb : ¬(0 < cfg.sessionBudget ∧ cfg.sessionBudget ≤ st.totalCost))
    (ha : st.activeProviderIndex < cfg.providers.length)
    (hsum : summarizePhase cfg st history script =
      ⟨ev1, h1, fails ++ succEntry :: rest, calls1, none⟩)
    (hf : ∀ f ∈ fails, ∃ e, f.err = some e ∧ is_retryable_error e = true)
    (hk : fails.length < max_retries)
    (hs : succEntry.err = none) :
    (route cfg st history sys script).events.filter REvent.isRetry =
      expectedRetries (providerAt cfg st.activeProviderIndex).name 0 fails ∧
    (route cfg st history sys script).events.filter REvent.isFailoverEv = [] ∧
    (route cfg st history sys script).calls =
      calls1 ++ List.replicate (fails.length + 1)
        ⟨st.activeProviderIndex, basePromptOf cfg sys, h1⟩ ∧
    (route cfg st history sys script).outcome = .completed ∧
    (route cfg st history sys script).state.activeProviderIndex =
      st.activeProviderIndex := by
  have hev1 : ev1.filter REvent.isRetry = [] ∧ ev1.filter REvent.isFailoverEv = [] := by
    have h1 := summarizePhase_filter_retry cfg st history script
    have h2 := summarizePhase_filter_failover cfg st history script
    rw [hsum] at h1 h2
    exact ⟨h1, h2⟩
  obtain ⟨evs, st', heq, hfret, hffail, haPI⟩ :=
    attemptLoop_retries (providerAt cfg st.activeProviderIndex) st.activeProviderIndex
      (basePromptOf cfg sys) h1 succEntry rest hs fails max_retries 0
      { st with activeProviderIndex := st.activeProviderIndex } hf (by omega)
  have hmod : (st.activeProviderIndex + 0) % cfg.providers.length =
      st.activeProviderIndex := by
    rw [Nat.add_zero]
    exact Nat.mod_eq_of_lt ha
  obtain ⟨m, hm⟩ : ∃ m, cfg.providers.length = m + 1 :=
    ⟨cfg.providers.length - 1, by omega⟩
  have hroute : route cfg st history sys script =
      { events := ev1 ++ evs, calls := calls1 ++ List.replicate (fails.length + 1)
          ⟨st.activeProviderIndex, basePromptOf cfg sys, h1⟩,
        state := st', history := h1, outcome := .completed } := by
    unfold route
    rw [if_neg hb]
    simp only [hsum]
    rw [if_neg (by omega : ¬cfg.providers.length = 0)]
    rw [if_neg (by omega : ¬st.activeProviderIndex ≥ cfg.providers.length)]
    rw [hm, providerLoop]
    simp only [← hm, hmod, failoverPrefix, lt_self_iff_false, if_false, heq]
    rfl
  rw [hroute]
  refine ⟨?_, ?_, rfl, rfl, haPI rfl⟩
  · simp only [List.filter_append, hev1.1, hfret, List.nil_append]
  · simp only [List.filter_append, hev1.2, hffail, List.nil_append, List.append_nil]

/-- C1 witness: one provider, a single 429 failure, then a successful
stream. -/
theorem transient_retries_same_provider_witness :
    (route Samples.cfgOne Samples.st0 [Samples.msgN 1] "sys" Samples.scriptRetry).events.filter
        REvent.isRetry =
      expectedRetries (providerAt Samples.cfgOne 0).name 0 [⟨[], some "429 rate limit"⟩] ∧
    (route Samples.cfgOne Samples.st0 [Samples.msgN 1] "sys"
        Samples.scriptRetry).events.filter REvent.isFailoverEv = [] ∧
    (route Samples.cfgOne Samples.st0 [Samples.msgN 1] "sys" Samples.scriptRetry).calls =
      [] ++ List.replicate 2 ⟨0, basePromptOf Samples.cfgOne "sys", [Samples.msgN 1]⟩ ∧
    (route Samples.cfgOne Samples.st0 [Samples.msgN 1] "sys"
        Samples.scriptRetry).outcome = .completed ∧
    (route Samples.cfgOne Samples.st0 [Samples.msgN 1] "sys"
        Samples.scriptRetry).state.activeProviderIndex = 0 :=
  transient_retries_same_provider Samples.cfgOne Samples.st0 [Samples.msgN 1] "sys"
    Samples.scriptRetry [] [Samples.msgN 1] [] [⟨[], some "429 rate limit"⟩]
    ⟨[.str "hi"], none⟩ []
    (by norm_num [Samples.cfgOne])
    (by decide)
    (by rfl)
    (fun f hf => by
      rcases List.mem_singleton.mp hf with rfl
      exact ⟨"429 rate limit", rfl, by decide⟩)
    (by decide)
    rfl

/-! ## Claim C2 -/

theorem attemptLoop_fatal (provider : ProviderSpec) (idx : Nat) (prompt : String)
    (history : List Msg) (g : GenResult) (gs : List GenResult) (rl attempt : Nat)
    (st : RouterState) (e : String) (hg : g.err = some e)
    (hre : is_retryable_error e = false) :
    attemptLoop provider idx prompt history (rl + 1) attempt st (g :: gs) =
      ⟨(processChunks provider.modelName idx g.chunks true st).events,
        [⟨idx, prompt, history⟩], gs,
        (processChunks provider.modelName idx g.chunks true st).state, some e⟩ := by
  rw [attemptLoop]
  simp only [List.headD_cons, List.tail_cons, hg, hre, Bool.false_eq_true, if_false]

theorem attemptLoop_success (provider : ProviderSpec) (idx : Nat) (prompt : String)
    (history : List Msg) (g : GenResult) (gs : List GenResult) (rl attempt : Nat)
    (st : RouterState) (hg : g.err = none) :
    attemptLoop provider idx prompt history (rl + 1) attempt st (g :: gs) =
      ⟨(processChunks provider.modelName idx g.chunks true st).events,
        [⟨idx, prompt, history⟩], gs,
        (processChunks provider.modelName idx g.chunks true st).state, none⟩ := by
  rw [attemptLoop]
  simp only [List.headD_cons, List.tail_cons, hg]

/-- C2: for every turn in which the active provider `i` (with `i + 1` still
in range) raises a hard-exhaustion (non-retryable) error and provider `i + 1`
then streams successfully on its first attempt, `route` (a) emits exactly one
FAILOVER event, naming provider `i + 1`, (b) calls provider `i` once with the
base prompt and then provider `i + 1` once with the distilled context string
reconstructed from the history appended to that prompt, (c) completes the
turn normally, and (d) leaves `active_provider_index` equal to `i + 1`. -/
theorem hard_exhaustion_failover (cfg : RouterConfig) (st : RouterState)
    (history : List Msg) (sys : String) (script : List GenResult)
    (ev1 : List REvent) (h1 : List Msg) (calls1 : List GenCall)
    (failEntry succEntry : GenResult) (rest : List GenResult) (e : String)
    (hb : ¬(0 < cfg.sessionBudget ∧ cfg.sessionBudget ≤ st.totalCost))
    (ha : st.activeProviderIndex + 1 < cfg.providers.length)
    (hsum : summarizePhase cfg st history script =
      ⟨ev1, h1, failEntry :: succEntry :: rest, calls1, none⟩)
    (hfe : failEntry.err = some e)
    (hre : is_retryable_error e = false)
    (hs : succEntry.err = none)
    (hc : succEntry.chunks ≠ []) :
    (route cfg st history sys script).events.filter REvent.isFailoverEv =
      [REvent.failover (providerAt cfg (st.activeProviderIndex + 1)).name] ∧
    (route cfg st history sys script).calls =
      calls1 ++ [⟨st.activeProviderIndex, basePromptOf cfg sys, h1⟩,
        ⟨st.activeProviderIndex + 1,
          basePromptOf cfg sys ++ "\n\n[CONTEXT RESTORED]:\n" ++ distill h1, h1⟩] ∧
    (route cfg st history sys script).outcome = .completed ∧
    (route cfg st history sys script).state.activeProviderIndex =
      st.activeProviderIndex + 1 := by
  have hev1 : ev1.filter REvent.isFailoverEv = [] := by
    have h2 := summarizePhase_filter_failover cfg st history script
    rw [hsum] at h2
    exact h2
  have hmod0 : (st.activeProviderIndex + 0) % cfg.providers.length =
      st.activeProviderIndex := by
    rw [Nat.add_zero]; exact Nat.mod_eq_of_lt (by omega)
  have hmod1 : (st.activeProviderIndex + 1) % cfg.providers.length =
      st.activeProviderIndex + 1 := Nat.mod_eq_of_lt ha
  obtain ⟨m, hm⟩ : ∃ m, cfg.providers.length = m + 2 :=
    ⟨cfg.providers.length - 2, by omega⟩
  have hA : attemptLoop (providerAt cfg st.activeProviderIndex) st.activeProviderIndex
      (basePromptOf cfg sys) h1 max_retries 0
      { st with activeProviderIndex := st.activeProviderIndex }
      (failEntry :: succEntry :: rest) =
      ⟨(processChunks (providerAt cfg st.activeProviderIndex).modelName
          st.activeProviderIndex failEntry.chunks true
          { st with activeProviderIndex := st.activeProviderIndex }).events,
        [⟨st.activeProviderIndex, basePromptOf cfg sys, h1⟩], succEntry :: rest,
        (processChunks (providerAt cfg st.activeProviderIndex).modelName
          st.activeProviderIndex failEntry.chunks true
          { st with activeProviderIndex := st.activeProviderIndex }).state, some e⟩ :=
    attemptLoop_fatal _ _ _ _ _ _ 9 0 _ e hfe hre
  have hB : attemptLoop (providerAt cfg (st.activeProviderIndex + 1))
      (st.activeProviderIndex + 1)
      (basePromptOf cfg sys ++ "\n\n[CONTEXT RESTORED]:\n" ++ distill h1) h1 max_retries 0
      (processChunks (providerAt cfg st.activeProviderIndex).modelName
        st.activeProviderIndex failEntry.chunks true
        { st with activeProviderIndex := st.activeProviderIndex }).state
      (succEntry :: rest) =
      ⟨(processChunks (providerAt cfg (st.activeProviderIndex + 1)).modelName
          (st.activeProviderIndex + 1) succEntry.chunks true
          (processChunks (providerAt cfg st.activeProviderIndex).modelName
            st.activeProviderIndex failEntry.chunks true
            { st with activeProviderIndex := st.activeProviderIndex }).state).events,
        [⟨st.activeProviderIndex + 1,
          basePromptOf cfg sys ++ "\n\n[CONTEXT RESTORED]:\n" ++ distill h1, h1⟩], rest,
        (processChunks (providerAt cfg (st.activeProviderIndex + 1)).modelName
          (st.activeProviderIndex + 1) succEntry.chunks true
          (processChunks (providerAt cfg st.activeProviderIndex).modelName
            st.activeProviderIndex failEntry.chunks true
            { st with activeProviderIndex := st.activeProviderIndex }).state).state, none⟩ :=
    attemptLoop_success _ _ _ _ _ _ 9 0 _ hs
  have hroute : route cfg st history sys script =
      { events := ev1 ++
          ((processChunks (providerAt cfg st.activeProviderIndex).modelName
            st.activeProviderIndex failEntry.chunks true
            { st with activeProviderIndex := st.activeProviderIndex }).events ++
          (REvent.failover (providerAt cfg (st.activeProviderIndex + 1)).name ::
            (processChunks (providerAt cfg (st.activeProviderIndex + 1)).modelName
              (st.activeProviderIndex + 1) succEntry.chunks true
              (processChunks (providerAt cfg st.activeProviderIndex).modelName
                st.activeProviderIndex failEntry.chunks true
                { st with activeProviderIndex := st.activeProviderIndex }).state).events))
        calls := calls1 ++ [⟨st.activeProviderIndex, basePromptOf cfg sys, h1⟩,
          ⟨st.activeProviderIndex + 1,
            basePromptOf cfg sys ++ "\n\n[CONTEXT RESTORED]:\n" ++ distill h1, h1⟩]
        state := (processChunks (providerAt cfg (st.activeProviderIndex + 1)).modelName
          (st.activeProviderIndex + 1) succEntry.chunks true
          (processChunks (providerAt cfg st.activeProviderIndex).modelName
            st.activeProviderIndex failEntry.chunks true
            { st with activeProviderIndex := st.activeProviderIndex }).state).state
        history := h1, outcome := .completed } := by
    unfold route
    rw [if_neg hb]
    simp only [hsum]
    rw [if_neg (by omega : ¬cfg.providers.length = 0)]
    rw [if_neg (by omega : ¬st.activeProviderIndex ≥ cfg.providers.length)]
    rw [hm, providerLoop]
    simp only [← hm, hmod0, failoverPrefix, lt_self_iff_false, if_false, hA]
    rw [providerLoop]
    simp only [hmod1, failoverPrefix, if_pos Nat.zero_lt_one, hB]
    rfl
  rw [hroute]
  refine ⟨?_, rfl, rfl, ?_⟩
  · simp only [List.filter_append, hev1, List.nil_append, List.filter_cons]
    rw [processChunks_filter_failover, processChunks_filter_failover]
    rfl
  · exact processChunks_aPI_true _ _ _ _ hc

/-- C2 witness: two providers, a hard quota failure on the first, a
successful first attempt on the second. -/
theorem hard_exhaustion_failover_witness :
    (route Samples.cfgTwo Samples.st0 [Samples.msgN 1] "sys"
        Samples.scriptFailover).events.filter REvent.isFailoverEv =
      [REvent.failover (providerAt Samples.cfgTwo 1).name] ∧
    (route Samples.cfgTwo Samples.st0 [Samples.msgN 1] "sys" Samples.scriptFailover).calls =
      [] ++ [⟨0, basePromptOf Samples.cfgTwo "sys", [Samples.msgN 1]⟩,
        ⟨1, basePromptOf Samples.cfgTwo "sys" ++ "\n\n[CONTEXT RESTORED]:\n" ++
          distill [Samples.msgN 1], [Samples.msgN 1]⟩] ∧
    (route Samples.cfgTwo Samples.st0 [Samples.msgN 1] "sys"
        Samples.scriptFailover).outcome = .completed ∧
    (route Samples.cfgTwo Samples.st0 [Samples.msgN 1] "sys"
        Samples.scriptFailover).state.activeProviderIndex = 1 :=
  hard_exhaustion_failover Samples.cfgTwo Samples.st0 [Samples.msgN 1] "sys"
    Samples.scriptFailover [] [Samples.msgN 1] []
    ⟨[], some "You exceeded your daily quota"⟩ ⟨[.str "ok"], none⟩ []
    "You exceeded your daily quota"
    (by norm_num [Samples.cfgTwo])
    (by decide)
    (by rfl)
    rfl
    (by decide)
    rfl
    (by decide)

/-! ## Claim C5 -/

theorem attemptLoop_all_fail (provider : ProviderSpec) (idx : Nat) (prompt : String)
    (history : List Msg) :
    ∀ (rl attempt : Nat) (st : RouterState) (script : List GenResult),
      (∀ g ∈ script, g.err.isSome) → rl < script.length →
      ∃ e k,
        (attemptLoop provider idx prompt history rl attempt st script).failure = some e ∧
        (attemptLoop provider idx prompt history rl attempt st script).scriptRest =
          script.drop k ∧
        1 ≤ k ∧ k ≤ rl + 1 := by
  intro rl
  induction rl with
  | zero =>
    intro attempt st script hf hlen
    cases script with
    | nil => simp at hlen
    | cons g gs =>
      obtain ⟨e, hg⟩ := Option.isSome_iff_exists.mp (hf g (List.mem_cons_self g gs))
      refine ⟨e, 1, ?_, ?_, le_refl 1, by omega⟩
      · rw [attemptLoop]
        simp only [List.headD_cons, List.tail_cons, hg]
      · rw [attemptLoop]
        simp only [List.headD_cons, List.tail_cons, hg]
        rfl
  | succ rl ih =>
    intro attempt st script hf hlen
    cases script with
    | nil => simp at hlen
    | cons g gs =>
      obtain ⟨e, hg⟩ := Option.isSome_iff_exists.mp (hf g (List.mem_cons_self g gs))
      by_cases hr : is_retryable_error e = true
      · obtain ⟨e', k', hfail', hdrop', hk1', hk2'⟩ :=
          ih (attempt + 1)
            (processChunks provider.modelName idx g.chunks true st).state gs
            (fun x hx => hf x (List.mem_cons_of_mem g hx)) (by simp at hlen; omega)
        refine ⟨e', k' + 1, ?_, ?_, by omega, by omega⟩
        · rw [attemptLoop]
          simp only [List.headD_cons, List.tail_cons, hg, hr, if_true]
          exact hfail'
        · rw [attemptLoop]
          simp only [List.headD_cons, List.tail_cons, hg, hr, if_true]
          rw [List.drop_succ_cons]
          exact hdrop'
      · rw [Bool.not_eq_true] at hr
        refine ⟨e, 1, ?_, ?_, le_refl 1, by omega⟩
        · rw [attemptLoop]
          simp only [List.headD_cons, List.tail_cons, hg, hr, Bool.false_eq_true, if_false]
        · rw [attemptLoop]
          simp only [List.headD_cons, List.tail_cons, hg, hr, Bool.false_eq_true, if_false]
          rfl

theorem providerLoop_all_fail (cfg : RouterConfig) (basePrompt : String)
    (history : List Msg) (startIndex : Nat) :
    ∀ (remaining i : Nat) (st : RouterState) (script : List GenResult) (errs : List String),
      (∀ g ∈ script, g.err.isSome) →
      remaining * (max_retries + 1) ≤ script.length →
      ∃ pre errsAll,
        (providerLoop cfg basePrompt history startIndex remaining i st script errs).events =
          pre ++ [.message (allFailedMessage errsAll)] ∧
        (providerLoop cfg basePrompt history startIndex remaining i st script errs).outcome =
          .raised "Failover exhausted." ∧
        (providerLoop cfg basePrompt history startIndex remaining i st script
          errs).state.activeProviderIndex = 0 ∧
        errs <+: errsAll ∧
        ∀ j, j < remaining → ∃ e,
          ("• " ++ (providerAt cfg ((startIndex + (i + j)) % cfg.providers.length)).name
            ++ ": " ++ e) ∈ errsAll := by
  intro remaining
  induction remaining with
  | zero =>
    intro i st script errs _ _
    refine ⟨[], errs, ?_, ?_, ?_, List.prefix_refl errs, by omega⟩
    · rw [providerLoop]; rfl
    · rw [providerLoop]
    · rw [providerLoop]
  | succ remaining ih =>
    intro i st script errs hf hlen
    have hmr : max_retries = 10 := rfl
    rw [hmr] at hlen
    obtain ⟨e, k, hfail, hdrop, hk1, hk2⟩ :=
      attemptLoop_all_fail (providerAt cfg ((startIndex + i) % cfg.providers.length))
        ((startIndex + i) % cfg.providers.length)
        (failoverPrefix (providerAt cfg ((startIndex + i) % cfg.providers.length))
          basePrompt history i).2 history max_retries 0 st script hf
        (by rw [hmr]; omega)
    obtain ⟨pre', errsAll, hev', hout', hst', hpre', hcov'⟩ :=
      ih (i + 1)
        (attemptLoop (providerAt cfg ((startIndex + i) % cfg.providers.length))
          ((startIndex + i) % cfg.providers.length)
          (failoverPrefix (providerAt cfg ((startIndex + i) % cfg.providers.length))
            basePrompt history i).2 history max_retries 0 st script).state
        (script.drop k)
        (errs ++ ["• " ++ (providerAt cfg ((startIndex + i) % cfg.providers.length)).name
          ++ ": " ++ e])
        (fun x hx => hf x (List.mem_of_mem_drop hx))
        (by rw [hmr] at hk2 ⊢; rw [List.length_drop]; omega)
    refine ⟨(failoverPrefix (providerAt cfg ((startIndex + i) % cfg.providers.length))
        basePrompt history i).1 ++
        (attemptLoop (providerAt cfg ((startIndex + i) % cfg.providers.length))
          ((startIndex + i) % cfg.providers.length)
          (failoverPrefix (providerAt cfg ((startIndex + i) % cfg.providers.length))
            basePrompt history i).2 history max_retries 0 st script).events ++ pre',
      errsAll, ?_, ?_, ?_, ?_, ?_⟩
    · rw [providerLoop]
      simp only [hfail, hdrop, hev']
      simp [List.append_assoc]
    · rw [providerLoop]
      simp only [hfail, hdrop, hout']
    · rw [providerLoop]
      simp only [hfail, hdrop, hst']
    · exact (List.prefix_append errs _).trans hpre'
    · intro j hj
      match j with
      | 0 =>
        refine ⟨e, ?_⟩
        have hmem : ("• " ++ (providerAt cfg ((startIndex + i) % cfg.providers.length)).name
            ++ ": " ++ e) ∈ (errs ++ ["• " ++ (providerAt cfg
              ((startIndex + i) % cfg.providers.length)).name ++ ": " ++ e]) := by
          simp
        have := hpre'.subset hmem
        simpa using this
      | j' + 1 =>
        obtain ⟨e', he'⟩ := hcov' j' (by omega)
        refine ⟨e', ?_⟩
        have harith : i + 1 + j' = i + (j' + 1) := by omega
        rw [harith] at he'
        exact he'

/-- Relates the executable substring test to list-of-characters infixes. -/
theorem strContains_iff (s pat : String) :
    strContains s pat = true ↔ pat.data <:+: s.data := by
  unfold strContains
  rw [List.any_eq_true]
  constructor
  · rintro ⟨i, _, hpre⟩
    exact ⟨(s.data.take i), (s.data.drop i).drop pat.data.length, by
      have h := List.prefix_iff_eq_take.mp (List.isPrefixOf_iff_prefix.mp hpre)
      calc s.data.take i ++ pat.data ++ (s.data.drop i).drop pat.data.length
          = s.data.take i ++ ((s.data.drop i).take pat.data.length ++
              (s.data.drop i).drop pat.data.length) := by rw [← h, List.append_assoc]
        _ = s.data.take i ++ s.data.drop i := by rw [List.take_append_drop]
        _ = s.data := List.take_append_drop i s.data⟩
  · rintro ⟨pre, post, heq⟩
    refine ⟨pre.length, ?_, ?_⟩
    · rw [List.mem_range]
      have h2 := congrArg List.length heq
      rw [List.length_append, List.length_append] at h2
      omega
    · rw [List.isPrefixOf_iff_prefix]
      refine ⟨post, ?_⟩
      rw [← heq, List.append_assoc]
      rw [List.drop_left]

theorem joinLines_mem_substring (x : String) :
    ∀ (l : List String), x ∈ l → x.data <:+: (joinLines l).data := by
  intro l
  induction l with
  | nil => intro hx; cases hx
  | cons s rest ih =>
    intro hx
    cases rest with
    | nil =>
      rcases List.mem_singleton.mp hx with rfl
      exact List.infix_refl x.data
    | cons r rest' =>
      have hjl : joinLines (s :: r :: rest') = s ++ "\n" ++ joinLines (r :: rest') := rfl
      rcases List.mem_cons.mp hx with rfl | hx'
      · rw [hjl]
        refine ⟨[], ("\n" ++ joinLines (r :: rest')).data, ?_⟩
        simp [String.data_append]
      · have h1 := ih hx'
        rw [hjl]
        refine h1.trans ?_
        refine ⟨(s ++ "\n").data, [], ?_⟩
        simp [String.data_append]

/-- C5 (amended): when the budget allows the turn, the provider list is
non-empty, the active index is in range and every `generate` call in the turn
fails (with enough scripted failures to exhaust every provider's retry
budget), `route` ends by yielding a final system-error message whose text
names every configured provider, and raises the terminal
`RuntimeError("Failover exhausted.")` — so individual provider errors escape
only through that final yielded message, and the only exception reaching the
caller is this single terminal one (whose own text, see the counterexample,
does not list the providers). -/
theorem all_providers_fail_terminal (cfg : RouterConfig) (st : RouterState)
    (history : List Msg) (sys : String) (script : List GenResult)
    (ev1 : List REvent) (h1 : List Msg) (script1 : List GenResult) (calls1 : List GenCall)
    (hb : ¬(0 < cfg.sessionBudget ∧ cfg.sessionBudget ≤ st.totalCost))
    (ha : st.activeProviderIndex < cfg.providers.length)
    (hsum : summarizePhase cfg st history script = ⟨ev1, h1, script1, calls1, none⟩)
    (hf : ∀ g ∈ script1, g.err.isSome)
    (hlen : cfg.providers.length * (max_retries + 1) ≤ script1.length) :
    (route cfg st history sys script).outcome = .raised "Failover exhausted." ∧
    (route cfg st history sys script).state.activeProviderIndex = 0 ∧
    ∃ pre m, (route cfg st history sys script).events = pre ++ [REvent.message m] ∧
      ∀ p ∈ cfg.providers, p.name.data <:+: m.data := by
  obtain ⟨pre', errsAll, hev', hout', hst', _, hcov'⟩ :=
    providerLoop_all_fail cfg (basePromptOf cfg sys) h1 st.activeProviderIndex
      cfg.providers.length 0 { st with activeProviderIndex := st.activeProviderIndex }
      script1 [] hf hlen
  have hroute : route cfg st history sys script =
      { events := ev1 ++ (providerLoop cfg (basePromptOf cfg sys) h1 st.activeProviderIndex
          cfg.providers.length 0 { st with activeProviderIndex := st.activeProviderIndex }
          script1 []).events
        calls := calls1 ++ (providerLoop cfg (basePromptOf cfg sys) h1 st.activeProviderIndex
          cfg.providers.length 0 { st with activeProviderIndex := st.activeProviderIndex }
          script1 []).calls
        state := (providerLoop cfg (basePromptOf cfg sys) h1 st.activeProviderIndex
          cfg.providers.length 0 { st with activeProviderIndex := st.activeProviderIndex }
          script1 []).state
        history := h1
        outcome := (providerLoop cfg (basePromptOf cfg sys) h1 st.activeProviderIndex
          cfg.providers.length 0 { st with activeProviderIndex := st.activeProviderIndex }
          script1 []).outcome } := by
    unfold route
    rw [if_neg hb]
    simp only [hsum]
    rw [if_neg (by omega : ¬cfg.providers.length = 0)]
    rw [if_neg (by omega : ¬st.activeProviderIndex ≥ cfg.providers.length)]
  rw [hroute]
  refine ⟨hout', hst', ev1 ++ pre', allFailedMessage errsAll, ?_, ?_⟩
  · rw [hev', ← List.append_assoc]
  · intro p hp
    obtain ⟨idx, hidx, hgot⟩ := List.mem_iff_getElem.mp hp
    have hPA : providerAt cfg idx = p := by
      unfold providerAt
      rw [List.getD_eq_getElem?_getD, List.getElem?_eq_getElem hidx]
      simpa using hgot
    obtain ⟨j, hj, hjmod⟩ : ∃ j, j < cfg.providers.length ∧
        (st.activeProviderIndex + j) % cfg.providers.length = idx := by
      by_cases hle : st.activeProviderIndex ≤ idx
      · refine ⟨idx - st.activeProviderIndex, by omega, ?_⟩
        rw [Nat.add_sub_cancel' hle]
        exact Nat.mod_eq_of_lt hidx
      · refine ⟨idx + cfg.providers.length - st.activeProviderIndex, by omega, ?_⟩
        have harith : st.activeProviderIndex +
            (idx + cfg.providers.length - st.activeProviderIndex) =
            idx + cfg.providers.length := by omega
        rw [harith, Nat.add_mod_right]
        exact Nat.mod_eq_of_lt hidx
    obtain ⟨e, he⟩ := hcov' j hj
    rw [Nat.zero_add, hjmod, hPA] at he
    have hline : p.name.data <:+: ("• " ++ p.name ++ ": " ++ e).data := by
      refine ⟨"• ".data, (": " ++ e).data, ?_⟩
      simp [String.data_append]
    refine hline.trans ?_
    refine (joinLines_mem_substring _ errsAll he).trans ?_
    unfold allFailedMessage
    refine ⟨("\n[System Error]: All providers failed:\n" : String).data, [], ?_⟩
    simp [String.data_append]

/-- C5 witness: two providers and a script of 22 hard failures. -/
theorem all_providers_fail_terminal_witness :
    (route Samples.cfgTwo Samples.st0 [Samples.msgN 1] "sys"
        Samples.scriptAllFail).outcome = .raised "Failover exhausted." ∧
    (route Samples.cfgTwo Samples.st0 [Samples.msgN 1] "sys"
        Samples.scriptAllFail).state.activeProviderIndex = 0 ∧
    ∃ pre m, (route Samples.cfgTwo Samples.st0 [Samples.msgN 1] "sys"
        Samples.scriptAllFail).events = pre ++ [REvent.message m] ∧
      ∀ p ∈ Samples.cfgTwo.providers, p.name.data <:+: m.data :=
  all_providers_fail_terminal Samples.cfgTwo Samples.st0 [Samples.msgN 1] "sys"
    Samples.scriptAllFail [] [Samples.msgN 1] Samples.scriptAllFail []
    (by norm_num [Samples.cfgTwo])
    (by decide)
    rfl
    (by decide)
    (by decide)

/-- C5 counterexample: the claim as stated — "raises a terminal error whose
message lists every provider name attempted" — is false: at this concrete
all-fail run the raised error is `RuntimeError("Failover exhausted.")`, and
that message contains neither provider name (the names appear only in the
yielded system-error event, not in the raised error's message). -/
theorem all_fail_raised_message_counterexample :
    (route Samples.cfgTwo Samples.st0 [Samples.msgN 1] "sys"
        Samples.scriptAllFail).outcome = .raised "Failover exhausted." ∧
    ¬ (("alpha" : String).data <:+: ("Failover exhausted." : String).data) ∧
    ¬ (("beta" : String).data <:+: ("Failover exhausted." : String).data) :=
  ⟨by decide, by decide, by decide⟩

/-! ## Protocol Client: pending-request correlation (claim C3) -/

theorem mcp_step_preserves (s : MCP.ClientState) (ev : MCP.MEvent)
    (h1 : s.pending.Nodup) (h2 : (s.resolutions.map Prod.fst).Nodup)
    (h3 : ∀ id ∈ s.pending, id ∉ s.resolutions.map Prod.fst)
    (h4 : ∀ id ∈ s.pending, id ≤ s.requestId)
    (h5 : ∀ q ∈ s.resolutions, q.1 ≤ s.requestId)
    (h6 : s.pending.length + s.resolutions.length = s.requestId)
    (h7 : s.running = false → s.pending = []) :
    (MCP.step s ev).pending.Nodup ∧
    ((MCP.step s ev).resolutions.map Prod.fst).Nodup ∧
    (∀ id ∈ (MCP.step s ev).pending, id ∉ (MCP.step s ev).resolutions.map Prod.fst) ∧
    (∀ id ∈ (MCP.step s ev).pending, id ≤ (MCP.step s ev).requestId) ∧
    (∀ q ∈ (MCP.step s ev).resolutions, q.1 ≤ (MCP.step s ev).requestId) ∧
    ((MCP.step s ev).pending.length + (MCP.step s ev).resolutions.length =
      (MCP.step s ev).requestId) ∧
    ((MCP.step s ev).running = false → (MCP.step s ev).pending = []) := by
  cases ev with
  | sendRequest m =>
    simp only [MCP.step]
    by_cases hr : s.running
    · simp only [if_pos hr]
      refine ⟨?_, h2, ?_, ?_, ?_, ?_, ?_⟩
      · rw [List.nodup_append]
        refine ⟨h1, List.nodup_singleton _, ?_⟩
        intro a ha hb
        have := h4 a ha
        simp at hb
        omega
      · intro id hid
        rcases List.mem_append.mp hid with hmem | hmem
        · exact h3 id hmem
        · simp at hmem
          subst hmem
          intro hin
          obtain ⟨q, hq, hq1⟩ := List.mem_map.mp hin
          have := h5 q hq
          omega
      · intro id hid
        rcases List.mem_append.mp hid with hmem | hmem
        · exact Nat.le_succ_of_le (h4 id hmem)
        · simp at hmem
          omega
      · intro q hq
        exact Nat.le_succ_of_le (h5 q hq)
      · simp only [List.length_append, List.length_singleton]
        omega
      · intro habs
        rw [habs] at hr
        simp at hr
    · simp only [if_neg hr]
      exact ⟨h1, h2, h3, h4, h5, h6, h7⟩
  | response id pl =>
    simp only [MCP.step]
    by_cases hc : s.running = true ∧ id ∈ s.pending
    · simp only [if_pos hc]
      refine ⟨h1.erase id, ?_, ?_, ?_, ?_, ?_, ?_⟩
      · rw [List.map_append]
        rw [List.nodup_append]
        refine ⟨h2, List.nodup_singleton _, ?_⟩
        intro a ha hb
        simp at hb
        rw [hb] at ha
        exact h3 id hc.2 ha
      · intro id' hid'
        have hne : id' ≠ id := ((List.Nodup.mem_erase_iff h1).mp hid').1
        have hmem : id' ∈ s.pending := ((List.Nodup.mem_erase_iff h1).mp hid').2
        rw [List.map_append]
        intro hin
        rcases List.mem_append.mp hin with hx | hx
        · exact h3 id' hmem hx
        · simp at hx
          exact hne hx
      · intro id' hid'
        exact h4 id' (List.mem_of_mem_erase hid')
      · intro q hq
        rcases List.mem_append.mp hq with hx | hx
        · exact h5 q hx
        · simp at hx
          rw [hx]
          exact h4 id hc.2
      · rw [List.length_erase_of_mem hc.2, List.length_append, List.length_singleton]
        have : 0 < s.pending.length := List.length_pos.mpr
          (fun habs => by rw [habs] at hc; exact absurd hc.2 (List.not_mem_nil id))
        omega
      · intro habs
        rw [habs] at hc
        exact absurd hc.1 (by simp)
    · simp only [if_neg hc]
      exact ⟨h1, h2, h3, h4, h5, h6, h7⟩
  | timeoutFire id =>
    simp only [MCP.step]
    by_cases hc : id ∈ s.pending
    · simp only [if_pos hc]
      refine ⟨h1.erase id, ?_, ?_, ?_, ?_, ?_, ?_⟩
      · rw [List.map_append]
        rw [List.nodup_append]
        refine ⟨h2, List.nodup_singleton _, ?_⟩
        intro a ha hb
        simp at hb
        rw [hb] at ha
        exact h3 id hc ha
      · intro id' hid'
        have hne : id' ≠ id := ((List.Nodup.mem_erase_iff h1).mp hid').1
        have hmem : id' ∈ s.pending := ((List.Nodup.mem_erase_iff h1).mp hid').2
        rw [List.map_append]
        intro hin
        rcases List.mem_append.mp hin with hx | hx
        · exact h3 id' hmem hx
        · simp at hx
          exact hne hx
      · intro id' hid'
        exact h4 id' (List.mem_of_mem_erase hid')
      · intro q hq
        rcases List.mem_append.mp hq with hx | hx
        · exact h5 q hx
        · simp at hx
          rw [hx]
          exact h4 id hc
      · rw [List.length_erase_of_mem hc, List.length_append, List.length_singleton]
        have : 0 < s.pending.length := List.length_pos.mpr
          (fun habs => by rw [habs] at hc; exact absurd hc (List.not_mem_nil id))
        omega
      · intro habs
        have := h7 habs
        rw [this] at hc
        exact absurd hc (List.not_mem_nil id)
    · simp only [if_neg hc]
      exact ⟨h1, h2, h3, h4, h5, h6, h7⟩
  | disconnect =>
    simp only [MCP.step]
    by_cases hr : s.running
    · simp only [if_pos hr]
      refine ⟨List.nodup_nil, ?_, ?_, ?_, ?_, ?_, ?_⟩
      · rw [List.map_append, List.map_map]
        have hcomp : (Prod.fst ∘ fun i => ((i, MCP.MOutcome.cancelled) : Nat × MCP.MOutcome))
            = id := rfl
        rw [hcomp, List.map_id]
        rw [List.nodup_append]
        refine ⟨h2, h1, ?_⟩
        intro a ha hb
        exact h3 a hb ha
      · intro id' hid'
        exact absurd hid' (List.not_mem_nil id')
      · intro id' hid'
        exact absurd hid' (List.not_mem_nil id')
      · intro q hq
        rcases List.mem_append.mp hq with hx | hx
        · exact h5 q hx
        · obtain ⟨i, hi, hqi⟩ := List.mem_map.mp hx
          rw [← hqi]
          exact h4 i hi
      · simp only [List.length_nil, List.length_append, List.length_map]
        omega
      · intro _
        trivial
    · simp only [if_neg hr]
      exact ⟨h1, h2, h3, h4, h5, h6, h7⟩

theorem mcp_run_inv (tr : List MCP.MEvent) :
    (MCP.run tr).pending.Nodup ∧
    ((MCP.run tr).resolutions.map Prod.fst).Nodup ∧
    (∀ id ∈ (MCP.run tr).pending, id ∉ (MCP.run tr).resolutions.map Prod.fst) ∧
    (∀ id ∈ (MCP.run tr).pending, id ≤ (MCP.run tr).requestId) ∧
    (∀ q ∈ (MCP.run tr).resolutions, q.1 ≤ (MCP.run tr).requestId) ∧
    ((MCP.run tr).pending.length + (MCP.run tr).resolutions.length =
      (MCP.run tr).requestId) ∧
    ((MCP.run tr).running = false → (MCP.run tr).pending = []) := by
  induction tr using List.reverseRecOn with
  | nil =>
    refine ⟨List.nodup_nil, List.nodup_nil, ?_, ?_, ?_, rfl, fun _ => rfl⟩ <;>
      intro x hx <;> exact absurd hx (List.not_mem_nil x)
  | append_singleton tr ev ih =>
    obtain ⟨h1, h2, h3, h4, h5, h6, h7⟩ := ih
    have hstep := mcp_step_preserves (MCP.run tr) ev h1 h2 h3 h4 h5 h6 h7
    have hrun : MCP.run (tr ++ [ev]) = MCP.step (MCP.run tr) ev := by
      unfold MCP.run
      rw [List.foldl_append]
      rfl
    rw [hrun]
    exact hstep

theorem mcp_run_causes (tr : List MCP.MEvent) :
    ∀ q ∈ (MCP.run tr).resolutions,
      (∃ pl, MCP.MEvent.response q.1 pl ∈ tr ∧ q.2 = MCP.outcomeOf pl) ∨
      (q.2 = MCP.MOutcome.timeout ∧ MCP.MEvent.timeoutFire q.1 ∈ tr) ∨
      (q.2 = MCP.MOutcome.cancelled ∧ MCP.MEvent.disconnect ∈ tr) := by
  induction tr using List.reverseRecOn with
  | nil =>
    intro q hq
    exact absurd hq (List.not_mem_nil q)
  | append_singleton tr ev ih =>
    intro q hq
    have hrun : MCP.run (tr ++ [ev]) = MCP.step (MCP.run tr) ev := by
      unfold MCP.run
      rw [List.foldl_append]
      rfl
    rw [hrun] at hq
    have weaken : (∃ pl, MCP.MEvent.response q.1 pl ∈ tr ∧ q.2 = MCP.outcomeOf pl) ∨
        (q.2 = MCP.MOutcome.timeout ∧ MCP.MEvent.timeoutFire q.1 ∈ tr) ∨
        (q.2 = MCP.MOutcome.cancelled ∧ MCP.MEvent.disconnect ∈ tr) →
        (∃ pl, MCP.MEvent.response q.1 pl ∈ tr ++ [ev] ∧ q.2 = MCP.outcomeOf pl) ∨
        (q.2 = MCP.MOutcome.timeout ∧ MCP.MEvent.timeoutFire q.1 ∈ tr ++ [ev]) ∨
        (q.2 = MCP.MOutcome.cancelled ∧ MCP.MEvent.disconnect ∈ tr ++ [ev]) := by
      rintro (⟨pl, hp, ho⟩ | ⟨ho, hp⟩ | ⟨ho, hp⟩)
      · exact Or.inl ⟨pl, List.mem_append_left _ hp, ho⟩
      · exact Or.inr (Or.inl ⟨ho, List.mem_append_left _ hp⟩)
      · exact Or.inr (Or.inr ⟨ho, List.mem_append_left _ hp⟩)
    cases ev with
    | sendRequest m =>
      simp only [MCP.step] at hq
      by_cases hr : (MCP.run tr).running
      · rw [if_pos hr] at hq
        exact weaken (ih q hq)
      · rw [if_neg hr] at hq
        exact weaken (ih q hq)
    | response id pl =>
      simp only [MCP.step] at hq
      by_cases hc : (MCP.run tr).running = true ∧ id ∈ (MCP.run tr).pending
      · rw [if_pos hc] at hq
        simp only at hq
        rcases List.mem_append.mp hq with hx | hx
        · exact weaken (ih q hx)
        · simp at hx
          subst hx
          exact Or.inl ⟨pl, List.mem_append_right _ (List.mem_singleton_self _), rfl⟩
      · rw [if_neg hc] at hq
        exact weaken (ih q hq)
    | timeoutFire id =>
      simp only [MCP.step] at hq
      by_cases hc : id ∈ (MCP.run tr).pending
      · rw [if_pos hc] at hq
        simp only at hq
        rcases List.mem_append.mp hq with hx | hx
        · exact weaken (ih q hx)
        · simp at hx
          subst hx
          exact Or.inr (Or.inl ⟨rfl, List.mem_append_right _ (List.mem_singleton_self _)⟩)
      · rw [if_neg hc] at hq
        exact weaken (ih q hq)
    | disconnect =>
      simp only [MCP.step] at hq
      by_cases hr : (MCP.run tr).running
      · rw [if_pos hr] at hq
        simp only at hq
        rcases List.mem_append.mp hq with hx | hx
        · exact weaken (ih q hx)
        · obtain ⟨i, _, hqi⟩ := List.mem_map.mp hx
          subst hqi
          exact Or.inr (Or.inr ⟨rfl, List.mem_append_right _ (List.mem_singleton_self _)⟩)
      · rw [if_neg hr] at hq
        exact weaken (ih q hq)

/-- C3: over every interleaving of `send_request` calls, read-loop response
deliveries, `wait_for` timeouts and disconnects, the Protocol Client's
pending-request table satisfies: (a) at most one pending completion per id —
the table's ids are duplicate-free; (b) no completion resolves twice — the
resolution log's ids are duplicate-free, even when responses arrive in
reverse order; (c) every allocated id is accounted for exactly once (still
pending, or resolved exactly once); (d) while connected, a `send_request`
allocates `_request_id + 1`, strictly larger than every id pending or
resolved so far — ids are never reused while pending; (e) a response whose id
matches no pending entry is dropped without resolving anything (the state is
unchanged); (f) every resolution arises from exactly the matching cause — a
response with that id (resolved with that response's result or error), a
timeout (resolved as a timeout failure), or a disconnect (resolved as
cancelled). -/
theorem mcp_pending_request_correlation (tr : List MCP.MEvent) :
    (MCP.run tr).pending.Nodup ∧
    ((MCP.run tr).resolutions.map Prod.fst).Nodup ∧
    ((MCP.run tr).pending.length + (MCP.run tr).resolutions.length =
      (MCP.run tr).requestId) ∧
    ((MCP.run tr).running = true → ∀ (m : String),
      (MCP.step (MCP.run tr) (.sendRequest m)).requestId = (MCP.run tr).requestId + 1 ∧
      (∀ id ∈ (MCP.run tr).pending, id < (MCP.run tr).requestId + 1) ∧
      (∀ q ∈ (MCP.run tr).resolutions, q.1 < (MCP.run tr).requestId + 1)) ∧
    (∀ id pl, id ∉ (MCP.run tr).pending →
      MCP.step (MCP.run tr) (.response id pl) = MCP.run tr) ∧
    (∀ q ∈ (MCP.run tr).resolutions,
      (∃ pl, MCP.MEvent.response q.1 pl ∈ tr ∧ q.2 = MCP.outcomeOf pl) ∨
      (q.2 = MCP.MOutcome.timeout ∧ MCP.MEvent.timeoutFire q.1 ∈ tr) ∨
      (q.2 = MCP.MOutcome.cancelled ∧ MCP.MEvent.disconnect ∈ tr)) := by
  obtain ⟨h1, h2, h3, h4, h5, h6, h7⟩ := mcp_run_inv tr
  refine ⟨h1, h2, h6, ?_, ?_, mcp_run_causes tr⟩
  · intro hr m
    refine ⟨?_, ?_, ?_⟩
    · simp only [MCP.step, if_pos hr]
    · intro id hid
      have := h4 id hid
      omega
    · intro q hq
      have := h5 q hq
      omega
  · intro id pl hid
    simp only [MCP.step]
    rw [if_neg (fun h => hid h.2)]

/-- C3 witness: three requests answered in reverse order resolve each pending
completion with its matching result exactly once, and a response for the
never-allocated id 9 is dropped without changing the state. -/
theorem mcp_pending_request_correlation_witness :
    ((MCP.run Samples.demoTrace).resolutions.map Prod.fst).Nodup ∧
    (MCP.step (MCP.run Samples.demoTrace) (.response 9 (.ok "ghost")) =
      MCP.run Samples.demoTrace) ∧
    (MCP.run Samples.demoTrace).resolutions =
      [(3, .result (some "P")), (2, .result (some "R")), (1, .result (some "T"))] :=
  ⟨(mcp_pending_request_correlation Samples.demoTrace).2.1,
    (mcp_pending_request_correlation Samples.demoTrace).2.2.2.2.1 9 (.ok "ghost")
      (by decide),
    by decide⟩

end Plexir
